import Mathlib

/-! MetaAudio channel pool (`src/Utilities/ChannelPool.cpp`)

A shallow embedding of `MetaAudio::ChannelPool`: the two channel collections,
the finish-detection predicate, the single release path `FreeChannel`, the
bulk clearing operations and `S_AlterChannel`, followed by theorems about them.

Conventions of the embedding

* Pointers are `Option` values (`none` is `nullptr`); an `sfx_t*` is the
  address of the sound, a natural number.
* `float` values are carried as IEEE-754 binary32 bit patterns (`F32`); the
  only float operation of the file, `==`, is `F32.feq`.
* `int` fields are `Int`; the `flags` bit set is the 32-bit pattern as a `Nat`.
* `std::chrono::steady_clock::now()` is the argument `now` of every operation
  that reads the clock.
* Calls into the collaborators (source, decoder, sentence coordinator) are
  recorded, in order, in `World.trace`.
* An operation that calls a method through an empty source handle without
  testing the handle has no result there: it returns `none`.
-/

namespace MetaAudio

/-! ## Scalars -/

/-- An IEEE-754 binary32 value, held as its 32-bit pattern. -/
structure F32 where
  bits : Nat
deriving DecidableEq, Repr

namespace F32

/-- The literal `0.0f`. -/
def zero : F32 := ⟨0⟩

/-- The literal `1.0f`. -/
def one : F32 := ⟨0x3F800000⟩

/-- The literal `2.0f`. -/
def two : F32 := ⟨0x40000000⟩

/-- Exponent all ones and a non-zero mantissa. -/
def isNaN (x : F32) : Bool :=
  (x.bits / 2 ^ 23) % 256 == 255 && x.bits % 2 ^ 23 != 0

/-- Positive or negative zero. -/
def isZero (x : F32) : Bool :=
  x.bits % 2 ^ 31 == 0

/-- The C++ `==` on two floats: false when either side is a NaN, true on
equal patterns and on two zeros of either sign. -/
def feq (a b : F32) : Bool :=
  !a.isNaN && !b.isNaN && (a.bits % 2 ^ 32 == b.bits % 2 ^ 32 || (a.isZero && b.isZero))

end F32

/-- Engine constants used by `ChannelPool.cpp` whose values are declared in
headers outside this file; they are parameters of the embedding. -/
structure Consts where
  CVOXWORDMAX : Nat
  CHAN_STREAM : Int
  CHAN_NETWORKVOICE_BASE : Int
  CHAN_NETWORKVOICE_END : Int
  SND_STOP : Nat
  SND_CHANGE_VOL : Nat
  SND_CHANGE_PITCH : Nat
deriving DecidableEq, Repr

/-! ## Collaborators -/

/-- Modelled from the spec: the playback source (`alure::Source`), one per
active channel, owning the device-level state behind `isPlaying()`,
`getLooping()`, `setPitch(float)` and `setGain(float)`. A source handle of a
channel is an `Option Source`; `none` is the empty handle. -/
structure Source where
  id : Nat
  playing : Bool
  looping : Bool
  gain : F32
  pitch : F32
deriving DecidableEq, Repr

namespace Source

/-- Device-reported state, `source.isPlaying()`. -/
def isPlaying (s : Source) : Bool := s.playing

/-- Loop flag, `source.getLooping()`. -/
def getLooping (s : Source) : Bool := s.looping

/-- The call `source.setPitch(p)`. -/
def setPitch (s : Source) (p : F32) : Source := { s with pitch := p }

/-- The call `source.setGain(g)`. -/
def setGain (s : Source) (g : F32) : Source := { s with gain := g }

/-- The call `source.stop()`. -/
def stop (s : Source) : Source := { s with playing := false }

end Source

/-- Modelled from the spec: a word slot of the sentence coordinator's table,
with its nullable sound reference. -/
structure voxword_t where
  sfx : Option Nat
deriving DecidableEq, Repr

/-- The sound named by the `sfx_t*` argument of `S_AlterChannel`: its address
and the `name` array it points to. -/
structure sfx_t where
  addr : Nat
  name : List Char
deriving DecidableEq, Repr

/-! ## Channels -/

/-- The fields of `aud_channel_t` that `ChannelPool.cpp` reads or writes. -/
structure aud_channel_t where
  entnum : Int
  entchannel : Int
  sfx : Option Nat
  source : Option Source
  decoder : Option Nat
  buffer : Option Nat
  isentence : Int
  volume : F32
  pitch : F32
  playback_end_time : Int
deriving DecidableEq, Repr

/-- One call into a collaborator, or one write into the word table. A source
call records the source as it was when the call was made. -/
inductive Effect where
  | sourceStop (src : Source)
  | sourceDestroy (src : Source)
  | decoderReset (id : Nat)
  | voxwordClear (isentence : Int) (i : Nat)
  | CloseMouth (ch : aud_channel_t)
deriving DecidableEq, Repr

/-- Recogniser of the `CloseMouth` notifications in a trace. -/
def Effect.isCloseMouth : Effect → Bool
  | .CloseMouth _ => true
  | _ => false

/-- Modelled from the spec: the sentence coordinator (`VoxManager`), with its
table `rgrgvoxword` of rows of word slots. -/
structure VoxManager where
  rgrgvoxword : List (List voxword_t)
deriving DecidableEq, Repr

/-- What the pool reaches through `vox.lock()` and through the source and
decoder handles: the coordinator and the chronological record of the calls
made so far. -/
structure World where
  vox : VoxManager
  trace : List Effect
deriving DecidableEq, Repr

/-- The assignment `rgrgvoxword[row][i].sfx = nullptr`. -/
def VoxManager.clearWordSfx (v : VoxManager) (row i : Nat) : VoxManager :=
  { v with rgrgvoxword :=
      v.rgrgvoxword.modify (fun r => r.modify (fun wd => { wd with sfx := none }) i) row }

/-- The slot `rgrgvoxword[row][i]`, when it exists. -/
def VoxManager.word? (v : VoxManager) (row i : Nat) : Option voxword_t :=
  match v.rgrgvoxword[row]? with
  | some r => r[i]?
  | none => none

/-- Modelled from the spec: `VoxManager::CloseMouth(ch)`, the notification
made on every release; the channel is recorded as it is passed. -/
def VoxManager.CloseMouth (w : World) (ch : aud_channel_t) : World :=
  { w with trace := w.trace ++ [Effect.CloseMouth ch] }

/-- The pool: the workaround cvar's value, the two collections and the world
it acts on. -/
structure ChannelPool where
  al_xfi_workaround : F32
  dynamic : List aud_channel_t
  static_ : List aud_channel_t
  world : World
deriving DecidableEq, Repr

/-! ## Standard algorithms with a functor that takes its element by reference -/

/-- The algorithm `std::any_of`: the functor is applied front to back and the
scan stops at the first element on which it returns true. -/
def any_of {σ α : Type} (f : σ → α → Bool × α × σ) : σ → List α → Bool × List α × σ
  | s, [] => (false, [], s)
  | s, x :: xs =>
    match f s x with
    | (true, x1, s1) => (true, x1 :: xs, s1)
    | (false, x1, s1) =>
      match any_of f s1 xs with
      | (b, xs1, s2) => (b, x1 :: xs1, s2)

/-- The algorithm `std::for_each`. -/
def for_each {σ α : Type} (f : σ → α → α × σ) : σ → List α → List α × σ
  | s, [] => ([], s)
  | s, x :: xs =>
    match f s x with
    | (x1, s1) =>
      match for_each f s1 xs with
      | (xs1, s2) => (x1 :: xs1, s2)

/-- The idiom `c.erase(std::remove_if(c.begin(), c.end(), f), c.end())`: the
functor is applied once to every element, front to back, and the elements on
which it returned false are kept in their order. -/
def erase_remove_if {σ α : Type} (f : σ → α → Bool × α × σ) : σ → List α → List α × σ
  | s, [] => ([], s)
  | s, x :: xs =>
    match f s x with
    | (true, _, s1) => erase_remove_if f s1 xs
    | (false, x1, s1) =>
      match erase_remove_if f s1 xs with
      | (xs1, s2) => (x1 :: xs1, s2)

/-- The algorithm `std::any_of` with a functor whose call may fail to return
(`none`): as `any_of`, and without a result as soon as a call of the functor
has none. -/
def any_of_opt {σ α : Type} (f : σ → α → Option (Bool × α × σ)) :
    σ → List α → Option (Bool × List α × σ)
  | s, [] => some (false, [], s)
  | s, x :: xs =>
    match f s x with
    | none => none
    | some (true, x1, s1) => some (true, x1 :: xs, s1)
    | some (false, x1, s1) =>
      match any_of_opt f s1 xs with
      | none => none
      | some (b, xs1, s2) => some (b, x1 :: xs1, s2)

namespace ChannelPool

/-! ## Finish detection -/

/-- The overload `bool ChannelPool::IsPlaying(const aud_channel_t& channel)`. -/
def IsPlaying (K : Consts) (al_xfi_workaround : F32) (now : Int)
    (channel : aud_channel_t) : Bool :=
  match channel.source with
  | some src =>
    if al_xfi_workaround.feq F32.zero ||
        al_xfi_workaround.feq F32.two ||
        src.getLooping ||
        channel.entchannel == K.CHAN_STREAM ||
        (decide (channel.entchannel ≥ K.CHAN_NETWORKVOICE_BASE) &&
          decide (channel.entchannel ≤ K.CHAN_NETWORKVOICE_END)) ||
        channel.decoder.isSome ||
        channel.buffer.isNone
    then src.isPlaying
    else src.isPlaying && decide (now < channel.playback_end_time)
  | none => false

/-- The functor of `IsPlaying(sfx_t*)`. -/
def IsPlaying_functor (K : Consts) (al_xfi_workaround : F32) (now : Int) (sfx : Option Nat)
    (w : World) (channel : aud_channel_t) : Bool × aud_channel_t × World :=
  (decide (channel.sfx = sfx) && channel.source.isSome &&
      IsPlaying K al_xfi_workaround now channel, channel, w)

/-- The overload `bool ChannelPool::IsPlaying(sfx_t* sfx)`, with the pool it
leaves behind. -/
def IsPlaying_sfx (K : Consts) (P : ChannelPool) (now : Int) (sfx : Option Nat) :
    Bool × ChannelPool :=
  match any_of (IsPlaying_functor K P.al_xfi_workaround now sfx) P.world P.dynamic with
  | (true, dyn, w1) => (true, { P with dynamic := dyn, world := w1 })
  | (false, dyn, w1) =>
    match any_of (IsPlaying_functor K P.al_xfi_workaround now sfx) w1 P.static_ with
    | (b, sta, w2) => (b, { P with dynamic := dyn, static_ := sta, world := w2 })

/-! ## Release -/

/-- The loop `for (i = 0; i < CVOXWORDMAX; ++i) rgrgvoxword[isentence][i].sfx = nullptr`. -/
def clearSentenceWords (K : Consts) (isentence : Int) (w : World) : World :=
  (List.range K.CVOXWORDMAX).foldl
    (fun w i =>
      { vox := w.vox.clearWordSfx isentence.toNat i
        trace := w.trace ++ [Effect.voxwordClear isentence i] })
    w

/-- The method `void ChannelPool::FreeChannel(aud_channel_t* ch)`. -/
def FreeChannel (K : Consts) (w : World) (ch : aud_channel_t) : aud_channel_t × World :=
  -- if (ch->source) { ch->buffer = nullptr; ch->source.stop(); ch->source.destroy(); }
  let r1 : aud_channel_t × World :=
    match ch.source with
    | some src =>
      ({ ch with buffer := none, source := none },
        { w with trace := w.trace ++ [Effect.sourceStop src, Effect.sourceDestroy src.stop] })
    | none => (ch, w)
  -- if (ch->decoder) { ch->decoder.reset(); }
  let r2 : aud_channel_t × World :=
    match r1.1.decoder with
    | some d =>
      ({ r1.1 with decoder := none }, { r1.2 with trace := r1.2.trace ++ [Effect.decoderReset d] })
    | none => r1
  -- if (ch->isentence >= 0) { ... }
  let w3 : World :=
    if r2.1.isentence ≥ 0 then clearSentenceWords K r2.1.isentence r2.2 else r2.2
  -- ch->isentence = -1; ch->sfx = nullptr;
  let ch4 : aud_channel_t := { r2.1 with isentence := -1, sfx := none }
  -- vox.lock()->CloseMouth(ch);
  (ch4, VoxManager.CloseMouth w3 ch4)

/-! ## Allocation -/

/-- The method `SND_PickStaticChannel`: `fresh` is the value of a
default-constructed `aud_channel_t`; the returned reference is the position
of the new channel in the static collection. -/
def SND_PickStaticChannel (P : ChannelPool) (fresh : aud_channel_t)
    (_entnum _entchannel : Int) (_sfx : Option Nat) : Nat × ChannelPool :=
  (P.static_.length, { P with static_ := P.static_ ++ [fresh] })

/-- The method `SND_PickDynamicChannel`: `none` is the null return, `some i`
the position of the new channel in the dynamic collection. -/
def SND_PickDynamicChannel (K : Consts) (P : ChannelPool) (now : Int) (fresh : aud_channel_t)
    (_entnum entchannel : Int) (sfx : Option Nat) : Option Nat × ChannelPool :=
  if entchannel = K.CHAN_STREAM then
    match IsPlaying_sfx K P now sfx with
    | (true, P1) => (none, P1)
    | (false, P1) => (some P1.dynamic.length, { P1 with dynamic := P1.dynamic ++ [fresh] })
  else
    (some P.dynamic.length, { P with dynamic := P.dynamic ++ [fresh] })

/-! ## Clearing -/

/-- The functor of `ClearAllChannels`. -/
def ClearAllChannels_functor (K : Consts) (w : World) (channel : aud_channel_t) :
    aud_channel_t × World :=
  if channel.sfx ≠ none then FreeChannel K w channel else (channel, w)

/-- The method `void ChannelPool::ClearAllChannels()`. -/
def ClearAllChannels (K : Consts) (P : ChannelPool) : ChannelPool :=
  match for_each (ClearAllChannels_functor K) P.world P.dynamic with
  | (_, w1) =>
    match for_each (ClearAllChannels_functor K) w1 P.static_ with
    | (_, w2) => { P with dynamic := [], static_ := [], world := w2 }

/-- The functor of `ClearEntityChannels`. -/
def ClearEntityChannels_functor (K : Consts) (entnum entchannel : Int)
    (w : World) (channel : aud_channel_t) : Bool × aud_channel_t × World :=
  if channel.entnum = entnum ∧ channel.entchannel = entchannel then
    match FreeChannel K w channel with
    | (ch1, w1) => (true, ch1, w1)
  else (false, channel, w)

/-- The method `void ChannelPool::ClearEntityChannels(int entnum, int entchannel)`. -/
def ClearEntityChannels (K : Consts) (P : ChannelPool) (entnum entchannel : Int) : ChannelPool :=
  match erase_remove_if (ClearEntityChannels_functor K entnum entchannel) P.world P.dynamic with
  | (dyn, w1) =>
    match erase_remove_if (ClearEntityChannels_functor K entnum entchannel) w1 P.static_ with
    | (sta, w2) => { P with dynamic := dyn, static_ := sta, world := w2 }

/-- The functor of `ClearFinished`. -/
def ClearFinished_functor (K : Consts) (al_xfi_workaround : F32) (now : Int)
    (w : World) (channel : aud_channel_t) : Bool × aud_channel_t × World :=
  if channel.isentence < 0 ∧ ¬ (IsPlaying K al_xfi_workaround now channel = true) then
    match FreeChannel K w channel with
    | (ch1, w1) => (true, ch1, w1)
  else (false, channel, w)

/-- The method `void ChannelPool::ClearFinished()`. -/
def ClearFinished (K : Consts) (P : ChannelPool) (now : Int) : ChannelPool :=
  match erase_remove_if (ClearFinished_functor K P.al_xfi_workaround now) P.world P.dynamic with
  | (dyn, w1) =>
    match erase_remove_if (ClearFinished_functor K P.al_xfi_workaround now) w1 P.static_ with
    | (sta, w2) => { P with dynamic := dyn, static_ := sta, world := w2 }

/-! ## Parameter mutation -/

/-- The lambda `internalFunctor` of `S_AlterChannel`. Lines 134 and 140 call
`channel.source.setPitch` and `channel.source.setGain` without the test of the
handle that lines 18, 26 and 48 make: through an empty handle the call
dereferences a null implementation pointer and the lambda has no result
(`none`). The field is written before the call. -/
def internalFunctor (K : Consts) (fvol pitch : F32) (flags : Nat)
    (w : World) (channel : aud_channel_t) : Option (aud_channel_t × World) :=
  -- if (flags & SND_CHANGE_PITCH) { channel.pitch = pitch; channel.source.setPitch(channel.pitch); }
  let r1 : Option aud_channel_t :=
    if flags &&& K.SND_CHANGE_PITCH ≠ 0 then
      match channel.source with
      | some src => some { channel with pitch := pitch, source := some (src.setPitch pitch) }
      | none => none
    else some channel
  match r1 with
  | none => none
  | some c1 =>
    -- if (flags & SND_CHANGE_VOL) { channel.volume = fvol; channel.source.setGain(channel.volume); }
    let r2 : Option aud_channel_t :=
      if flags &&& K.SND_CHANGE_VOL ≠ 0 then
        match c1.source with
        | some src => some { c1 with volume := fvol, source := some (src.setGain fvol) }
        | none => none
      else some c1
    match r2 with
    | none => none
    | some c2 =>
      -- if (flags & SND_STOP) { FreeChannel(&channel); }
      if flags &&& K.SND_STOP ≠ 0 then some (FreeChannel K w c2) else some (c2, w)

/-- The match test of the sentence branch (`sfx->name[0] == '!'`). -/
def sentenceMatch (entnum entchannel : Int) (channel : aud_channel_t) : Bool :=
  decide (channel.entnum = entnum) && decide (channel.entchannel = entchannel) &&
    decide (channel.sfx ≠ none) && decide (channel.isentence ≥ 0)

/-- The match test of the regular-sound branch. -/
def soundMatch (entnum entchannel : Int) (sfx : sfx_t) (channel : aud_channel_t) : Bool :=
  decide (channel.entnum = entnum) && decide (channel.entchannel = entchannel) &&
    decide (channel.sfx = some sfx.addr)

/-- The test `sfx->name[0] == '!'`; an empty name reads as its terminating NUL. -/
def isSentenceName (sfx : sfx_t) : Bool :=
  sfx.name.headD (Char.ofNat 0) == '!'

/-- The match test selected by the name of `sfx`. -/
def alterMatch (entnum entchannel : Int) (sfx : sfx_t) (channel : aud_channel_t) : Bool :=
  if isSentenceName sfx then sentenceMatch entnum entchannel channel
  else soundMatch entnum entchannel sfx channel

/-- The `std::function` named `functor` in `S_AlterChannel`. -/
def S_AlterChannel_functor (K : Consts) (entnum entchannel : Int) (sfx : sfx_t)
    (fvol pitch : F32) (flags : Nat)
    (w : World) (channel : aud_channel_t) : Option (Bool × aud_channel_t × World) :=
  if alterMatch entnum entchannel sfx channel then
    match internalFunctor K fvol pitch flags w channel with
    | some (ch1, w1) => some (true, ch1, w1)
    | none => none
  else some (false, channel, w)

/-- The method `int ChannelPool::S_AlterChannel(...)`: the `bool` of the
return expression converted to `int`, and the pool left behind; `none` when
the call does not return. -/
def S_AlterChannel (K : Consts) (P : ChannelPool) (entnum entchannel : Int) (sfx : sfx_t)
    (fvol pitch : F32) (flags : Nat) : Option (Int × ChannelPool) :=
  match any_of_opt (S_AlterChannel_functor K entnum entchannel sfx fvol pitch flags)
      P.world P.dynamic with
  | none => none
  | some (true, dyn, w1) => some (1, { P with dynamic := dyn, world := w1 })
  | some (false, dyn, w1) =>
    match any_of_opt (S_AlterChannel_functor K entnum entchannel sfx fvol pitch flags)
        w1 P.static_ with
    | none => none
    | some (b, sta, w2) =>
      some ((if b then 1 else 0), { P with dynamic := dyn, static_ := sta, world := w2 })

/-! ## Descriptions used in the statements -/

/-- The calls one `FreeChannel(ch)` makes, in order, and the channel each
was made with. -/
def FreeChannel_effects (K : Consts) (ch : aud_channel_t) : List Effect :=
  (match ch.source with
    | some src => [Effect.sourceStop src, Effect.sourceDestroy src.stop]
    | none => []) ++
  (match ch.decoder with
    | some d => [Effect.decoderReset d]
    | none => []) ++
  (if ch.isentence ≥ 0 then
      (List.range K.CVOXWORDMAX).map (Effect.voxwordClear ch.isentence)
    else []) ++
  [Effect.CloseMouth
    { ch with
      buffer := if ch.source.isSome then none else ch.buffer
      source := none, decoder := none, isentence := -1, sfx := none }]

/-- Header values of the engine SDK, used for the concrete instances. -/
def sdkConsts : Consts where
  CVOXWORDMAX := 32
  CHAN_STREAM := 5
  CHAN_NETWORKVOICE_BASE := 7
  CHAN_NETWORKVOICE_END := 500
  SND_STOP := 32
  SND_CHANGE_VOL := 64
  SND_CHANGE_PITCH := 128

/-! ## Concrete instances -/

/-- A word table of four rows of 32 slots, every slot referring to sound 9. -/
def sampleVox : VoxManager :=
  ⟨List.replicate 4 (List.replicate 32 ⟨some 9⟩)⟩

/-- A world with the sample table and no call made yet. -/
def sampleWorld : World := ⟨sampleVox, []⟩

/-- A source that the device reports as playing, not looping. -/
def sampleSource : Source :=
  { id := 1, playing := true, looping := false, gain := F32.one, pitch := F32.one }

/-- A buffer-backed voice channel of entity 5 playing sentence row 1. -/
def sampleSentenceChannel : aud_channel_t :=
  { entnum := 5, entchannel := 2, sfx := some 9, source := some sampleSource,
    decoder := none, buffer := some 3, isentence := 1,
    volume := F32.one, pitch := F32.one, playback_end_time := 100 }

/-- A pool, workaround value 1.0, whose dynamic collection holds the sample
sentence channel. -/
def samplePool : ChannelPool :=
  { al_xfi_workaround := F32.one, dynamic := [sampleSentenceChannel], static_ := [],
    world := sampleWorld }

/-- A vacant channel, as a default-constructed `aud_channel_t`. -/
def sampleFresh : aud_channel_t :=
  { entnum := 0, entchannel := 0, sfx := none, source := none, decoder := none,
    buffer := none, isentence := -1, volume := F32.one, pitch := F32.one,
    playback_end_time := 0 }

/-- A looping source that the device reports as playing. -/
def sampleLoopingSource : Source :=
  { id := 2, playing := true, looping := true, gain := F32.one, pitch := F32.one }

/-- A buffer-backed, non-stream, non-voice channel without decoder or
sentence, its source playing and not looping, its end time at 100. -/
def sampleTimedChannel : aud_channel_t :=
  { entnum := 5, entchannel := 1, sfx := some 9, source := some sampleSource,
    decoder := none, buffer := some 3, isentence := -1,
    volume := F32.one, pitch := F32.one, playback_end_time := 100 }

/-- The literal `0.5f`. -/
def sampleHalf : F32 := ⟨0x3F000000⟩

/-- A sentence name, at address 9. -/
def sampleSentenceSfx : sfx_t := { addr := 9, name := "!HG_GREN0".toList }

/-- A second sentence channel of entity 5 on the voice channel, playing
sentence row 2 through its own source. -/
def sampleSentenceChannel2 : aud_channel_t :=
  { entnum := 5, entchannel := 2, sfx := some 10,
    source := some { id := 3, playing := true, looping := false,
                     gain := F32.one, pitch := F32.one },
    decoder := none, buffer := some 4, isentence := 2,
    volume := F32.one, pitch := F32.one, playback_end_time := 200 }

/-- A pool whose dynamic collection holds the two sample sentence channels. -/
def sampleTwoSentencePool : ChannelPool :=
  { al_xfi_workaround := F32.one,
    dynamic := [sampleSentenceChannel, sampleSentenceChannel2], static_ := [],
    world := sampleWorld }

/-- A pool with one sample sentence channel in each collection. -/
def sampleSplitPool : ChannelPool :=
  { al_xfi_workaround := F32.one,
    dynamic := [sampleSentenceChannel], static_ := [sampleSentenceChannel2],
    world := sampleWorld }

/-- A sentence channel of entity 5 on the voice channel that has its `sfx`
set and no source bound. -/
def sampleSourcelessChannel : aud_channel_t :=
  { entnum := 5, entchannel := 2, sfx := some 9, source := none,
    decoder := none, buffer := none, isentence := 1,
    volume := F32.one, pitch := F32.one, playback_end_time := 0 }

/-- A pool whose dynamic collection holds the sourceless sentence channel and
whose static collection holds the second sample sentence channel. -/
def sampleSourcelessPool : ChannelPool :=
  { al_xfi_workaround := F32.one,
    dynamic := [sampleSourcelessChannel], static_ := [sampleSentenceChannel2],
    world := sampleWorld }

/-! ## The vacancy invariant -/

/-- A channel with a null `sfx` has no bound source, no bound decoder and
`isentence = -1`. -/
def vacantOk (ch : aud_channel_t) : Prop :=
  ch.sfx = none → ch.source = none ∧ ch.decoder = none ∧ ch.isentence = -1

instance (ch : aud_channel_t) : Decidable (vacantOk ch) := by
  unfold vacantOk
  infer_instance

/-- The vacancy invariant of a pool: every channel of either collection
satisfies `vacantOk`. -/
def vacancyInvariant (P : ChannelPool) : Prop :=
  ∀ ch, ch ∈ P.dynamic ++ P.static_ → vacantOk ch

instance (P : ChannelPool) : Decidable (vacancyInvariant P) := by
  unfold vacancyInvariant
  infer_instance

end ChannelPool

/-! # Theorems -/

namespace ChannelPool

/-! ## The word table -/

theorem word?_clearWordSfx (v : VoxManager) (row i r j : Nat) :
    (v.clearWordSfx row i).word? r j =
      if r = row ∧ j = i then (v.word? r j).map (fun wd => { wd with sfx := none })
      else v.word? r j := by
  unfold VoxManager.clearWordSfx VoxManager.word?
  simp only [List.getElem?_modify]
  cases hr : v.rgrgvoxword[r]? with
  | none => simp
  | some rw0 =>
    by_cases h1 : row = r
    · subst h1
      simp only [Option.map_eq_map, Option.map_some', if_true, true_and, List.getElem?_modify]
      by_cases h2 : i = j
      · subst h2; simp
      · have : ¬ j = i := fun h => h2 h.symm
        cases hj : rw0[j]? <;> simp [h2, this]
    · have : ¬ r = row := fun h => h1 h.symm
      simp [h1, this]

theorem clearWords_foldl_trace (k : Int) (l : List Nat) (w : World) :
    (l.foldl (fun w i =>
        ({ vox := w.vox.clearWordSfx k.toNat i
           trace := w.trace ++ [Effect.voxwordClear k i] } : World)) w).trace
      = w.trace ++ l.map (Effect.voxwordClear k) := by
  induction l generalizing w with
  | nil => simp
  | cons a l ih => simp [List.foldl_cons, ih]

theorem clearWords_foldl_word? (k : Int) (l : List Nat) (w : World) (r j : Nat) :
    (l.foldl (fun w i =>
        ({ vox := w.vox.clearWordSfx k.toNat i
           trace := w.trace ++ [Effect.voxwordClear k i] } : World)) w).vox.word? r j
      = if r = k.toNat ∧ j ∈ l then (w.vox.word? r j).map (fun wd => { wd with sfx := none })
        else w.vox.word? r j := by
  induction l generalizing w with
  | nil => simp
  | cons a l ih =>
    simp only [List.foldl_cons, ih, word?_clearWordSfx, List.mem_cons]
    by_cases h1 : r = k.toNat <;> by_cases h2 : j = a <;> by_cases h3 : j ∈ l <;>
      simp [h1, h2, h3] <;> cases w.vox.word? k.toNat a <;> simp

theorem clearSentenceWords_trace (K : Consts) (k : Int) (w : World) :
    (clearSentenceWords K k w).trace
      = w.trace ++ (List.range K.CVOXWORDMAX).map (Effect.voxwordClear k) :=
  clearWords_foldl_trace k _ w

theorem clearSentenceWords_word? (K : Consts) (k : Int) (w : World) (r j : Nat) :
    (clearSentenceWords K k w).vox.word? r j
      = if r = k.toNat ∧ j < K.CVOXWORDMAX then
          (w.vox.word? r j).map (fun wd => { wd with sfx := none })
        else w.vox.word? r j := by
  unfold clearSentenceWords
  rw [clearWords_foldl_word?]
  simp [List.mem_range]

/-! ## Release -/

theorem FreeChannel_channel (K : Consts) (w : World) (ch : aud_channel_t) :
    (FreeChannel K w ch).1 =
      { ch with
        buffer := if ch.source.isSome then none else ch.buffer
        source := none, decoder := none, isentence := -1, sfx := none } := by
  unfold FreeChannel
  cases hs : ch.source <;> cases hd : ch.decoder <;> simp [hs, hd]

theorem FreeChannel_trace (K : Consts) (w : World) (ch : aud_channel_t) :
    (FreeChannel K w ch).2.trace = w.trace ++ FreeChannel_effects K ch := by
  unfold FreeChannel FreeChannel_effects VoxManager.CloseMouth
  cases hs : ch.source <;> cases hd : ch.decoder <;> by_cases hk : ch.isentence ≥ 0 <;>
    simp [hs, hd, hk, clearSentenceWords_trace]

theorem FreeChannel_word? (K : Consts) (w : World) (ch : aud_channel_t) (r j : Nat) :
    (FreeChannel K w ch).2.vox.word? r j =
      if 0 ≤ ch.isentence ∧ r = ch.isentence.toNat ∧ j < K.CVOXWORDMAX then
        (w.vox.word? r j).map (fun wd => { wd with sfx := none })
      else w.vox.word? r j := by
  unfold FreeChannel VoxManager.CloseMouth
  cases hs : ch.source <;> cases hd : ch.decoder <;> by_cases hk : ch.isentence ≥ 0 <;>
    simp [hs, hd, hk, clearSentenceWords_word?]

theorem FreeChannel_vox_of_neg (K : Consts) (w : World) (ch : aud_channel_t)
    (h : ch.isentence < 0) : (FreeChannel K w ch).2.vox = w.vox := by
  have hk : ¬ ch.isentence ≥ 0 := by omega
  unfold FreeChannel VoxManager.CloseMouth
  cases hs : ch.source <;> cases hd : ch.decoder <;> simp [hs, hd, hk]

theorem countP_isCloseMouth_FreeChannel_effects (K : Consts) (ch : aud_channel_t) :
    (FreeChannel_effects K ch).countP Effect.isCloseMouth = 1 := by
  unfold FreeChannel_effects
  have hr : ∀ (k : Int) (l : List Nat),
      (l.map (Effect.voxwordClear k)).countP Effect.isCloseMouth = 0 := by
    intro k l
    induction l with
    | nil => rfl
    | cons a l ih => simp [List.countP_cons, Effect.isCloseMouth, ih]
  cases hs : ch.source <;> cases hd : ch.decoder <;> by_cases hk : ch.isentence ≥ 0 <;>
    simp [hk, List.countP_append, List.countP_cons, Effect.isCloseMouth, hr]

/-- C1. After `FreeChannel(ch)`, whatever was bound to `ch` and whatever the
coordinator state: `ch.sfx` is null, `ch.isentence` is -1, no source and no
decoder is bound, and the calls made by this release contain exactly one
`CloseMouth` notification. -/
theorem FreeChannel_released (K : Consts) (w : World) (ch : aud_channel_t) :
    (FreeChannel K w ch).1.sfx = none ∧
    (FreeChannel K w ch).1.isentence = -1 ∧
    (FreeChannel K w ch).1.source = none ∧
    (FreeChannel K w ch).1.decoder = none ∧
    ∃ es : List Effect,
      (FreeChannel K w ch).2.trace = w.trace ++ es ∧ es.countP Effect.isCloseMouth = 1 := by
  refine ⟨?_, ?_, ?_, ?_, FreeChannel_effects K ch, FreeChannel_trace K w ch,
    countP_isCloseMouth_FreeChannel_effects K ch⟩ <;> simp [FreeChannel_channel]

/-- C2. Releasing a channel whose `isentence` is a valid row `k >= 0` clears
exactly row `k` of the word table: each of the `CVOXWORDMAX` slots of row `k`
is still there and has a null sound reference, and every slot of every other
row is unchanged. Releasing a channel with `isentence < 0` leaves the whole
table unchanged. -/
theorem FreeChannel_clears_sentence_row (K : Consts) (w : World) (ch : aud_channel_t) :
    (0 ≤ ch.isentence → ch.isentence.toNat < w.vox.rgrgvoxword.length →
      (∀ i, i < K.CVOXWORDMAX →
        ((FreeChannel K w ch).2.vox.word? ch.isentence.toNat i).isSome
            = (w.vox.word? ch.isentence.toNat i).isSome ∧
        ∀ wd, (FreeChannel K w ch).2.vox.word? ch.isentence.toNat i = some wd →
          wd.sfx = none) ∧
      (∀ r i, r ≠ ch.isentence.toNat →
        (FreeChannel K w ch).2.vox.word? r i = w.vox.word? r i)) ∧
    (ch.isentence < 0 → (FreeChannel K w ch).2.vox = w.vox) := by
  refine ⟨fun hk _ => ⟨fun i hi => ?_, fun r i hr => ?_⟩, FreeChannel_vox_of_neg K w ch⟩
  · rw [FreeChannel_word?]
    simp only [hk, hi, and_self, if_true]
    cases w.vox.word? ch.isentence.toNat i <;> simp
  · rw [FreeChannel_word?]
    simp [hr]

/-- Instance of C2: releasing the sample sentence channel (row 1) on the
sample table. -/
theorem FreeChannel_clears_sentence_row_witness :
    (0 ≤ sampleSentenceChannel.isentence ∧
      sampleSentenceChannel.isentence.toNat < sampleWorld.vox.rgrgvoxword.length) ∧
    ((∀ i, i < sdkConsts.CVOXWORDMAX →
        ((FreeChannel sdkConsts sampleWorld sampleSentenceChannel).2.vox.word?
            sampleSentenceChannel.isentence.toNat i).isSome
          = (sampleWorld.vox.word? sampleSentenceChannel.isentence.toNat i).isSome ∧
        ∀ wd, (FreeChannel sdkConsts sampleWorld sampleSentenceChannel).2.vox.word?
            sampleSentenceChannel.isentence.toNat i = some wd → wd.sfx = none) ∧
      (∀ r i, r ≠ sampleSentenceChannel.isentence.toNat →
        (FreeChannel sdkConsts sampleWorld sampleSentenceChannel).2.vox.word? r i
          = sampleWorld.vox.word? r i)) :=
  ⟨⟨by decide, by decide⟩,
    (FreeChannel_clears_sentence_row sdkConsts sampleWorld sampleSentenceChannel).1
      (by decide) (by decide)⟩

/-! ## Finish detection -/

theorem any_of_readonly {σ α : Type} (p : α → Bool) (s : σ) (l : List α) :
    any_of (fun s x => (p x, x, s)) s l = (l.any p, l, s) := by
  induction l with
  | nil => rfl
  | cons x xs ih =>
    unfold any_of
    cases hp : p x <;> simp [ih, hp]

theorem IsPlaying_sfx_eq (K : Consts) (P : ChannelPool) (now : Int) (sfx : Option Nat) :
    IsPlaying_sfx K P now sfx =
      ((P.dynamic.any fun ch => decide (ch.sfx = sfx) && ch.source.isSome &&
            IsPlaying K P.al_xfi_workaround now ch) ||
        (P.static_.any fun ch => decide (ch.sfx = sfx) && ch.source.isSome &&
            IsPlaying K P.al_xfi_workaround now ch), P) := by
  unfold IsPlaying_sfx
  have hf : IsPlaying_functor K P.al_xfi_workaround now sfx =
      fun s x => ((fun ch : aud_channel_t => decide (ch.sfx = sfx) && ch.source.isSome &&
            IsPlaying K P.al_xfi_workaround now ch) x, x, s) := rfl
  simp only [hf, any_of_readonly]
  cases h : (P.dynamic.any fun ch => decide (ch.sfx = sfx) && ch.source.isSome &&
            IsPlaying K P.al_xfi_workaround now ch) <;> simp

/-- C3. When the pool-wide `IsPlaying(H)` is true, a request for a dynamic
channel of type `CHAN_STREAM` with handle `H` returns null and leaves the
pool, both collections included, exactly as it was. -/
theorem SND_PickDynamicChannel_refuses_playing_stream (K : Consts) (P : ChannelPool)
    (now : Int) (fresh : aud_channel_t) (entnum : Int) (H : Option Nat)
    (h : (IsPlaying_sfx K P now H).1 = true) :
    SND_PickDynamicChannel K P now fresh entnum K.CHAN_STREAM H = (none, P) := by
  unfold SND_PickDynamicChannel
  rw [IsPlaying_sfx_eq] at h ⊢
  simp only [if_true]
  simp only at h
  rw [h]

/-- Instance of C3: sound 9 is playing on the sample pool at time 50. -/
theorem SND_PickDynamicChannel_refuses_playing_stream_witness :
    (IsPlaying_sfx sdkConsts samplePool 50 (some 9)).1 = true ∧
    SND_PickDynamicChannel sdkConsts samplePool 50 sampleFresh 7 sdkConsts.CHAN_STREAM (some 9)
      = (none, samplePool) :=
  ⟨by decide,
    SND_PickDynamicChannel_refuses_playing_stream sdkConsts samplePool 50 sampleFresh 7
      (some 9) (by decide)⟩

/-- C8. For a channel with a bound source, when the workaround value equals
0.0 or 2.0, or the source loops, or the channel type is `CHAN_STREAM` or lies
in the network-voice range, or a decoder is attached, or no buffer is bound,
`IsPlaying(channel)` is the device-reported `isPlaying()` of the source at
every current time and for every `playback_end_time`; so a looping channel
whose device reports playing is reported playing once the end time has passed. -/
theorem IsPlaying_defers_to_device (K : Consts) (al_xfi_workaround : F32)
    (ch : aud_channel_t) (src : Source) (hsrc : ch.source = some src)
    (h : al_xfi_workaround.feq F32.zero = true ∨ al_xfi_workaround.feq F32.two = true ∨
      src.getLooping = true ∨ ch.entchannel = K.CHAN_STREAM ∨
      (K.CHAN_NETWORKVOICE_BASE ≤ ch.entchannel ∧ ch.entchannel ≤ K.CHAN_NETWORKVOICE_END) ∨
      ch.decoder ≠ none ∨ ch.buffer = none) :
    (∀ now endt : Int,
      IsPlaying K al_xfi_workaround now { ch with playback_end_time := endt }
        = src.isPlaying) ∧
    (src.getLooping = true → src.isPlaying = true →
      ∀ now : Int, ch.playback_end_time ≤ now →
        IsPlaying K al_xfi_workaround now ch = true) := by
  have key : ∀ (now endt : Int),
      IsPlaying K al_xfi_workaround now { ch with playback_end_time := endt }
        = src.isPlaying := by
    intro now endt
    unfold IsPlaying
    simp only [hsrc]
    rw [if_pos]
    rcases h with h | h | h | h | h | h | h
    · simp [h]
    · simp [h]
    · simp [h]
    · simp [h]
    · simp [h.1, h.2]
    · cases hd : ch.decoder with
      | none => exact absurd hd h
      | some d => simp
    · simp [h]
  refine ⟨key, fun _ hp now _ => ?_⟩
  have := key now ch.playback_end_time
  simpa [hp] using this

/-- Instance of C8: the sample channel with a looping, playing source, asked
at time 150, past its end time 100, under workaround value 1.0. -/
theorem IsPlaying_defers_to_device_witness :
    ({ sampleTimedChannel with source := some sampleLoopingSource } : aud_channel_t).source
        = some sampleLoopingSource ∧
    sampleLoopingSource.getLooping = true ∧
    IsPlaying sdkConsts F32.one 150
      { sampleTimedChannel with source := some sampleLoopingSource } = true :=
  ⟨rfl, rfl,
    (IsPlaying_defers_to_device sdkConsts F32.one
      { sampleTimedChannel with source := some sampleLoopingSource } sampleLoopingSource rfl
      (Or.inr (Or.inr (Or.inl rfl)))).2 rfl rfl 150 (by decide)⟩

/-- C9. For a channel with a bound, non-looping source, a bound buffer, no
decoder, a channel type that is neither `CHAN_STREAM` nor in the
network-voice range, and a workaround value equal to neither 0.0 nor 2.0,
`IsPlaying(channel)` is true exactly when the device reports playing and the
current time is strictly before `playback_end_time`; at or past the end time
it is false even though the device reports playing. -/
theorem IsPlaying_timed (K : Consts) (al_xfi_workaround : F32) (now : Int)
    (ch : aud_channel_t) (src : Source) (hsrc : ch.source = some src)
    (hloop : src.getLooping = false) (hbuf : ch.buffer ≠ none) (hdec : ch.decoder = none)
    (hstream : ch.entchannel ≠ K.CHAN_STREAM)
    (hvoice : ¬ (K.CHAN_NETWORKVOICE_BASE ≤ ch.entchannel ∧
      ch.entchannel ≤ K.CHAN_NETWORKVOICE_END))
    (h0 : al_xfi_workaround.feq F32.zero = false)
    (h2 : al_xfi_workaround.feq F32.two = false) :
    (IsPlaying K al_xfi_workaround now ch = true ↔
      (src.isPlaying = true ∧ now < ch.playback_end_time)) ∧
    (ch.playback_end_time ≤ now → IsPlaying K al_xfi_workaround now ch = false) := by
  have hb : ch.buffer.isNone = false := by
    cases hb : ch.buffer with
    | none => exact absurd hb hbuf
    | some b => rfl
  have hv : (decide (ch.entchannel ≥ K.CHAN_NETWORKVOICE_BASE) &&
      decide (ch.entchannel ≤ K.CHAN_NETWORKVOICE_END)) = false := by
    by_cases h1 : K.CHAN_NETWORKVOICE_BASE ≤ ch.entchannel
    · have : ¬ ch.entchannel ≤ K.CHAN_NETWORKVOICE_END := fun h => hvoice ⟨h1, h⟩
      simp [this]
    · simp [h1]
  have key : IsPlaying K al_xfi_workaround now ch =
      (src.isPlaying && decide (now < ch.playback_end_time)) := by
    unfold IsPlaying
    simp only [hsrc]
    rw [if_neg]
    simp [h0, h2, hloop, hstream, hv, hdec, hb]
  refine ⟨by rw [key]; simp, fun hle => ?_⟩
  rw [key]
  have : ¬ now < ch.playback_end_time := by omega
  simp [this]

/-- Instance of C9: workaround value 1.0, end time 100, asked at time 150
while the device still reports playing. -/
theorem IsPlaying_timed_witness :
    sampleSource.isPlaying = true ∧
    IsPlaying sdkConsts F32.one 150 sampleTimedChannel = false :=
  ⟨rfl,
    (IsPlaying_timed sdkConsts F32.one 150 sampleTimedChannel sampleSource rfl rfl
      (by decide) rfl (by decide) (by decide) (by decide) (by decide)).2 (by decide)⟩

/-- C10. The pool-wide `IsPlaying(H)` is true if and only if some channel of
the dynamic or the static collection has `sfx = H`, a bound source and a true
`IsPlaying(channel)`; it is false when no channel with that handle has a bound
source; and the query leaves the pool, both collections included, unchanged. -/
theorem IsPlaying_sfx_iff (K : Consts) (P : ChannelPool) (now : Int) (H : Option Nat) :
    ((IsPlaying_sfx K P now H).1 = true ↔
      ∃ ch, (ch ∈ P.dynamic ∨ ch ∈ P.static_) ∧ ch.sfx = H ∧ ch.source ≠ none ∧
        IsPlaying K P.al_xfi_workaround now ch = true) ∧
    ((∀ ch, (ch ∈ P.dynamic ∨ ch ∈ P.static_) → ch.sfx = H → ch.source = none) →
      (IsPlaying_sfx K P now H).1 = false) ∧
    (IsPlaying_sfx K P now H).2 = P := by
  have hiff : (IsPlaying_sfx K P now H).1 = true ↔
      ∃ ch, (ch ∈ P.dynamic ∨ ch ∈ P.static_) ∧ ch.sfx = H ∧ ch.source ≠ none ∧
        IsPlaying K P.al_xfi_workaround now ch = true := by
    rw [IsPlaying_sfx_eq]
    simp only [Bool.or_eq_true, List.any_eq_true, Bool.and_eq_true, decide_eq_true_eq,
      Option.isSome_iff_ne_none]
    constructor
    · rintro (⟨ch, hm, h⟩ | ⟨ch, hm, h⟩)
      · exact ⟨ch, Or.inl hm, h.1.1, h.1.2, h.2⟩
      · exact ⟨ch, Or.inr hm, h.1.1, h.1.2, h.2⟩
    · rintro ⟨ch, hm | hm, h1, h2, h3⟩
      · exact Or.inl ⟨ch, hm, ⟨h1, h2⟩, h3⟩
      · exact Or.inr ⟨ch, hm, ⟨h1, h2⟩, h3⟩
  refine ⟨hiff, fun hnone => ?_, by rw [IsPlaying_sfx_eq]⟩
  cases hres : (IsPlaying_sfx K P now H).1 with
  | false => rfl
  | true =>
    obtain ⟨ch, hm, h1, h2, _⟩ := hiff.mp hres
    exact absurd (hnone ch hm h1) h2

/-! ## The algorithms on a guarded functor -/

theorem erase_remove_if_guarded {σ α : Type} (f : σ → α → Bool × α × σ) (p : α → Bool)
    (g : σ → α → α × σ)
    (hf : ∀ s x, f s x = if p x = true then (true, (g s x).1, (g s x).2) else (false, x, s))
    (s : σ) (l : List α) :
    erase_remove_if f s l =
      (l.filter (fun x => !p x), (l.filter p).foldl (fun s x => (g s x).2) s) := by
  induction l generalizing s with
  | nil => rfl
  | cons x xs ih =>
    unfold erase_remove_if
    rw [hf]
    cases hp : p x <;> simp [ih, hp]

theorem for_each_guarded {σ α : Type} (f : σ → α → α × σ) (p : α → Bool)
    (g : σ → α → α × σ)
    (hf : ∀ s x, f s x = if p x = true then g s x else (x, s))
    (s : σ) (l : List α) :
    (for_each f s l).2 = (l.filter p).foldl (fun s x => (g s x).2) s := by
  induction l generalizing s with
  | nil => rfl
  | cons x xs ih =>
    unfold for_each
    rw [hf]
    cases hp : p x <;> simp [ih, hp]

/-! ## Sweeps -/

theorem ClearFinished_functor_eq (K : Consts) (al_xfi_workaround : F32) (now : Int)
    (w : World) (ch : aud_channel_t) :
    ClearFinished_functor K al_xfi_workaround now w ch =
      if (decide (ch.isentence < 0) && !IsPlaying K al_xfi_workaround now ch) = true then
        (true, (FreeChannel K w ch).1, (FreeChannel K w ch).2)
      else (false, ch, w) := by
  unfold ClearFinished_functor
  by_cases h1 : ch.isentence < 0 <;> cases h2 : IsPlaying K al_xfi_workaround now ch <;>
    simp [h1, h2]

theorem ClearFinished_eq (K : Consts) (P : ChannelPool) (now : Int) :
    ClearFinished K P now =
      { P with
        dynamic := P.dynamic.filter fun ch =>
          !(decide (ch.isentence < 0) && !IsPlaying K P.al_xfi_workaround now ch)
        static_ := P.static_.filter fun ch =>
          !(decide (ch.isentence < 0) && !IsPlaying K P.al_xfi_workaround now ch)
        world :=
          ((P.dynamic ++ P.static_).filter fun ch =>
            decide (ch.isentence < 0) && !IsPlaying K P.al_xfi_workaround now ch).foldl
            (fun w ch => (FreeChannel K w ch).2) P.world } := by
  unfold ClearFinished
  simp only [erase_remove_if_guarded _ _ _ (ClearFinished_functor_eq K P.al_xfi_workaround now),
    List.filter_append, List.foldl_append]

/-- C4. `ClearFinished` keeps every sentence channel: the channels with
`isentence >= 0` of each collection are, after the sweep, the same channels
in the same order with the same field values, whatever their source reports
and also when no source is bound. -/
theorem ClearFinished_keeps_sentence_channels (K : Consts) (P : ChannelPool) (now : Int) :
    ((ClearFinished K P now).dynamic.filter fun ch => decide (0 ≤ ch.isentence))
        = (P.dynamic.filter fun ch => decide (0 ≤ ch.isentence)) ∧
    ((ClearFinished K P now).static_.filter fun ch => decide (0 ≤ ch.isentence))
        = (P.static_.filter fun ch => decide (0 ≤ ch.isentence)) ∧
    (∀ ch, ch ∈ P.dynamic → 0 ≤ ch.isentence → ch ∈ (ClearFinished K P now).dynamic) ∧
    (∀ ch, ch ∈ P.static_ → 0 ≤ ch.isentence → ch ∈ (ClearFinished K P now).static_) := by
  rw [ClearFinished_eq]
  have hnot : ∀ ch : aud_channel_t, 0 ≤ ch.isentence → ¬ ch.isentence < 0 :=
    fun ch h => by omega
  refine ⟨?_, ?_, ?_, ?_⟩
  · simp only [List.filter_filter]
    apply List.filter_congr
    intro ch _
    by_cases h : 0 ≤ ch.isentence
    · simp [h, hnot ch h]
    · simp [h]
  · simp only [List.filter_filter]
    apply List.filter_congr
    intro ch _
    by_cases h : 0 ≤ ch.isentence
    · simp [h, hnot ch h]
    · simp [h]
  · intro ch hm h
    simp [List.mem_filter, hm, hnot ch h]
  · intro ch hm h
    simp [List.mem_filter, hm, hnot ch h]

theorem ClearEntityChannels_functor_eq (K : Consts) (entnum entchannel : Int)
    (w : World) (ch : aud_channel_t) :
    ClearEntityChannels_functor K entnum entchannel w ch =
      if (decide (ch.entnum = entnum) && decide (ch.entchannel = entchannel)) = true then
        (true, (FreeChannel K w ch).1, (FreeChannel K w ch).2)
      else (false, ch, w) := by
  unfold ClearEntityChannels_functor
  by_cases h1 : ch.entnum = entnum <;> by_cases h2 : ch.entchannel = entchannel <;>
    simp [h1, h2]

theorem ClearEntityChannels_eq (K : Consts) (P : ChannelPool) (entnum entchannel : Int) :
    ClearEntityChannels K P entnum entchannel =
      { P with
        dynamic := P.dynamic.filter fun ch =>
          !(decide (ch.entnum = entnum) && decide (ch.entchannel = entchannel))
        static_ := P.static_.filter fun ch =>
          !(decide (ch.entnum = entnum) && decide (ch.entchannel = entchannel))
        world :=
          ((P.dynamic ++ P.static_).filter fun ch =>
            decide (ch.entnum = entnum) && decide (ch.entchannel = entchannel)).foldl
            (fun w ch => (FreeChannel K w ch).2) P.world } := by
  unfold ClearEntityChannels
  simp only [erase_remove_if_guarded _ _ _ (ClearEntityChannels_functor_eq K entnum entchannel),
    List.filter_append, List.foldl_append]

/-- C6. After `ClearEntityChannels(e, c)` each collection is the subsequence
of its previous contents whose `(entnum, entchannel)` differs from `(e, c)`,
in the original order and with every field unchanged, and no channel with
`entnum = e` and `entchannel = c` remains in either collection. -/
theorem ClearEntityChannels_filters (K : Consts) (P : ChannelPool) (e c : Int) :
    (ClearEntityChannels K P e c).dynamic
        = (P.dynamic.filter fun ch => decide (¬ (ch.entnum = e ∧ ch.entchannel = c))) ∧
    (ClearEntityChannels K P e c).static_
        = (P.static_.filter fun ch => decide (¬ (ch.entnum = e ∧ ch.entchannel = c))) ∧
    (∀ ch, ch ∈ (ClearEntityChannels K P e c).dynamic ∨
        ch ∈ (ClearEntityChannels K P e c).static_ →
      ¬ (ch.entnum = e ∧ ch.entchannel = c)) := by
  rw [ClearEntityChannels_eq]
  refine ⟨?_, ?_, ?_⟩
  · apply List.filter_congr
    intro ch _
    by_cases h1 : ch.entnum = e <;> by_cases h2 : ch.entchannel = c <;> simp [h1, h2]
  · apply List.filter_congr
    intro ch _
    by_cases h1 : ch.entnum = e <;> by_cases h2 : ch.entchannel = c <;> simp [h1, h2]
  · rintro ch (hm | hm) <;>
    · simp only [List.mem_filter, Bool.not_eq_true', Bool.and_eq_false_iff,
        decide_eq_false_iff_not] at hm
      rintro ⟨h1, h2⟩
      rcases hm.2 with h | h
      · exact h h1
      · exact h h2

/-! ## A sequence of releases -/

theorem foldl_FreeChannel_trace (K : Consts) (l : List aud_channel_t) (w : World) :
    (l.foldl (fun w ch => (FreeChannel K w ch).2) w).trace
      = w.trace ++ l.flatMap (FreeChannel_effects K) := by
  induction l generalizing w with
  | nil => simp
  | cons a l ih => simp [List.foldl_cons, ih, FreeChannel_trace, List.flatMap_cons]

theorem countP_isCloseMouth_flatMap (K : Consts) (l : List aud_channel_t) :
    (l.flatMap (FreeChannel_effects K)).countP Effect.isCloseMouth = l.length := by
  induction l with
  | nil => rfl
  | cons a l ih =>
    simp only [List.flatMap_cons, List.countP_append, ih,
      countP_isCloseMouth_FreeChannel_effects, List.length_cons]
    omega

theorem FreeChannel_keeps_null (K : Consts) (w : World) (ch : aud_channel_t) (r j : Nat)
    (h : ∀ wd, w.vox.word? r j = some wd → wd.sfx = none) :
    ∀ wd, (FreeChannel K w ch).2.vox.word? r j = some wd → wd.sfx = none := by
  intro wd
  rw [FreeChannel_word?]
  split
  · cases hw : w.vox.word? r j with
    | none => simp
    | some w0 =>
      simp only [Option.map_some', Option.some.injEq]
      intro heq
      rw [← heq]
  · exact h wd

theorem foldl_FreeChannel_keeps_null (K : Consts) (l : List aud_channel_t) (w : World)
    (r j : Nat) (h : ∀ wd, w.vox.word? r j = some wd → wd.sfx = none) :
    ∀ wd, (l.foldl (fun w ch => (FreeChannel K w ch).2) w).vox.word? r j = some wd →
      wd.sfx = none := by
  induction l generalizing w with
  | nil => simpa using h
  | cons a l ih =>
    simp only [List.foldl_cons]
    exact ih _ (FreeChannel_keeps_null K w a r j h)

theorem FreeChannel_nulls_row (K : Consts) (w : World) (ch : aud_channel_t) (j : Nat)
    (hk : 0 ≤ ch.isentence) (hj : j < K.CVOXWORDMAX) :
    ∀ wd, (FreeChannel K w ch).2.vox.word? ch.isentence.toNat j = some wd →
      wd.sfx = none := by
  intro wd
  rw [FreeChannel_word?]
  simp only [hk, hj, and_self, if_true]
  cases hw : w.vox.word? ch.isentence.toNat j with
  | none => simp
  | some w0 =>
    simp only [Option.map_some', Option.some.injEq]
    intro heq
    rw [← heq]

theorem foldl_FreeChannel_nulls_row (K : Consts) (l : List aud_channel_t) (w : World)
    (ch : aud_channel_t) (j : Nat) (hm : ch ∈ l)
    (hk : 0 ≤ ch.isentence) (hj : j < K.CVOXWORDMAX) :
    ∀ wd, (l.foldl (fun w ch => (FreeChannel K w ch).2) w).vox.word? ch.isentence.toNat j
        = some wd → wd.sfx = none := by
  induction l generalizing w with
  | nil => cases hm
  | cons a l ih =>
    simp only [List.foldl_cons]
    rcases List.mem_cons.mp hm with heq | hl
    · subst heq
      exact foldl_FreeChannel_keeps_null K l _ _ _ (FreeChannel_nulls_row K w ch j hk hj)
    · exact ih _ hl

theorem ClearAllChannels_functor_eq (K : Consts) (w : World) (ch : aud_channel_t) :
    ClearAllChannels_functor K w ch =
      if decide (ch.sfx ≠ none) = true then FreeChannel K w ch else (ch, w) := by
  unfold ClearAllChannels_functor
  by_cases h : ch.sfx = none <;> simp [h]

theorem ClearAllChannels_eq (K : Consts) (P : ChannelPool) :
    ClearAllChannels K P =
      { P with
        dynamic := []
        static_ := []
        world :=
          ((P.dynamic ++ P.static_).filter fun ch => decide (ch.sfx ≠ none)).foldl
            (fun w ch => (FreeChannel K w ch).2) P.world } := by
  unfold ClearAllChannels
  simp only [List.filter_append, List.foldl_append]
  rw [← for_each_guarded _ _ _ (ClearAllChannels_functor_eq K) P.world P.dynamic,
    ← for_each_guarded _ _ _ (ClearAllChannels_functor_eq K) _ P.static_]

/-- C5. After `ClearAllChannels` both collections are empty, and the world is
what `FreeChannel`, applied once to each channel that had a non-null `sfx`
(dynamic collection first, in storage order), leaves: the number of
`CloseMouth` notifications made equals the number of those channels, the
source of each of them was stopped and destroyed, and the word-table row of
each of them that bore a sentence has null sound references. -/
theorem ClearAllChannels_releases_all (K : Consts) (P : ChannelPool) :
    (ClearAllChannels K P).dynamic = [] ∧
    (ClearAllChannels K P).static_ = [] ∧
    (ClearAllChannels K P).world =
      ((P.dynamic ++ P.static_).filter fun ch => decide (ch.sfx ≠ none)).foldl
        (fun w ch => (FreeChannel K w ch).2) P.world ∧
    (∃ es : List Effect,
      (ClearAllChannels K P).world.trace = P.world.trace ++ es ∧
      es.countP Effect.isCloseMouth =
        (P.dynamic ++ P.static_).countP (fun ch => decide (ch.sfx ≠ none)) ∧
      ∀ ch, (ch ∈ P.dynamic ∨ ch ∈ P.static_) → ch.sfx ≠ none →
        ∀ src, ch.source = some src →
          Effect.sourceStop src ∈ es ∧ Effect.sourceDestroy src.stop ∈ es) ∧
    (∀ ch, (ch ∈ P.dynamic ∨ ch ∈ P.static_) → ch.sfx ≠ none → 0 ≤ ch.isentence →
      ∀ i, i < K.CVOXWORDMAX →
        ∀ wd, (ClearAllChannels K P).world.vox.word? ch.isentence.toNat i = some wd →
          wd.sfx = none) := by
  rw [ClearAllChannels_eq]
  have hmem : ∀ ch : aud_channel_t, (ch ∈ P.dynamic ∨ ch ∈ P.static_) → ch.sfx ≠ none →
      ch ∈ (P.dynamic ++ P.static_).filter fun ch => decide (ch.sfx ≠ none) := by
    intro ch hm hs
    simp only [List.mem_filter, List.mem_append, decide_eq_true_eq]
    exact ⟨hm, hs⟩
  refine ⟨rfl, rfl, rfl, ⟨_, foldl_FreeChannel_trace K _ P.world, ?_, ?_⟩, ?_⟩
  · rw [countP_isCloseMouth_flatMap, List.countP_eq_length_filter]
  · intro ch hm hs src hsrc
    have hin := hmem ch hm hs
    constructor
    · exact List.mem_flatMap.mpr ⟨ch, hin, by simp [FreeChannel_effects, hsrc]⟩
    · exact List.mem_flatMap.mpr ⟨ch, hin, by simp [FreeChannel_effects, hsrc]⟩
  · intro ch hm hs hk i hi
    exact foldl_FreeChannel_nulls_row K _ P.world ch i (hmem ch hm hs) hk hi

/-! ## First match of a scan -/

theorem exists_first_split {α : Type} (p : α → Bool) (l : List α)
    (h : ∃ x, x ∈ l ∧ p x = true) :
    ∃ pre x post, l = pre ++ x :: post ∧ (∀ y, y ∈ pre → p y = false) ∧ p x = true := by
  induction l with
  | nil =>
    obtain ⟨x, hx, _⟩ := h
    cases hx
  | cons a l ih =>
    cases ha : p a with
    | true => exact ⟨[], a, l, rfl, by simp, ha⟩
    | false =>
      obtain ⟨x, hx, hpx⟩ := h
      have hxl : x ∈ l := by
        rcases List.mem_cons.mp hx with heq | hl
        · subst heq
          rw [ha] at hpx
          cases hpx
        · exact hl
      obtain ⟨pre, y, post, hl, hpre, hy⟩ := ih ⟨x, hxl, hpx⟩
      refine ⟨a :: pre, y, post, by rw [hl]; rfl, ?_, hy⟩
      intro z hz
      rcases List.mem_cons.mp hz with heq | hz'
      · rw [heq]; exact ha
      · exact hpre z hz'

theorem alterMatch_iff (e c : Int) (sfx : sfx_t) (ch : aud_channel_t) :
    alterMatch e c sfx ch = true ↔
      if isSentenceName sfx = true then
        ch.entnum = e ∧ ch.entchannel = c ∧ ch.sfx ≠ none ∧ 0 ≤ ch.isentence
      else ch.entnum = e ∧ ch.entchannel = c ∧ ch.sfx = some sfx.addr := by
  unfold alterMatch
  cases h : isSentenceName sfx <;> simp [sentenceMatch, soundMatch, and_assoc]

/-- C12. After `ClearFinished` each collection is the subsequence of its
previous contents made of the channels with `isentence >= 0` or a true
`IsPlaying(channel)`, in the original order and with unchanged fields; the
world is what `FreeChannel`, applied once to each channel with
`isentence < 0` and a false finish predicate (dynamic collection first, in
storage order), leaves; no channel that is still playing is removed, and no
channel with `isentence < 0` and a false finish predicate remains. -/
theorem ClearFinished_sweeps_finished (K : Consts) (P : ChannelPool) (now : Int) :
    (ClearFinished K P now).dynamic
        = (P.dynamic.filter fun ch =>
            decide (0 ≤ ch.isentence) || IsPlaying K P.al_xfi_workaround now ch) ∧
    (ClearFinished K P now).static_
        = (P.static_.filter fun ch =>
            decide (0 ≤ ch.isentence) || IsPlaying K P.al_xfi_workaround now ch) ∧
    (ClearFinished K P now).world
        = ((P.dynamic ++ P.static_).filter fun ch =>
            decide (ch.isentence < 0) && !IsPlaying K P.al_xfi_workaround now ch).foldl
            (fun w ch => (FreeChannel K w ch).2) P.world ∧
    (∀ ch, ch ∈ P.dynamic → IsPlaying K P.al_xfi_workaround now ch = true →
      ch ∈ (ClearFinished K P now).dynamic) ∧
    (∀ ch, ch ∈ P.static_ → IsPlaying K P.al_xfi_workaround now ch = true →
      ch ∈ (ClearFinished K P now).static_) ∧
    (∀ ch, ch ∈ (ClearFinished K P now).dynamic ∨ ch ∈ (ClearFinished K P now).static_ →
      ¬ (ch.isentence < 0 ∧ IsPlaying K P.al_xfi_workaround now ch = false)) := by
  have hkeep : ∀ ch : aud_channel_t,
      (!(decide (ch.isentence < 0) && !IsPlaying K P.al_xfi_workaround now ch))
        = (decide (0 ≤ ch.isentence) || IsPlaying K P.al_xfi_workaround now ch) := by
    intro ch
    by_cases h : ch.isentence < 0
    · have : ¬ 0 ≤ ch.isentence := by omega
      simp [h, this]
    · have : 0 ≤ ch.isentence := by omega
      simp [h, this]
  rw [ClearFinished_eq]
  refine ⟨?_, ?_, rfl, ?_, ?_, ?_⟩
  · exact List.filter_congr fun ch _ => hkeep ch
  · exact List.filter_congr fun ch _ => hkeep ch
  · intro ch hm hp
    simp [List.mem_filter, hm, hp]
  · intro ch hm hp
    simp [List.mem_filter, hm, hp]
  · rintro ch (hm | hm) ⟨h1, h2⟩ <;>
    · have := (List.mem_filter.mp hm).2
      simp [h1, h2] at this

/-- C13. `FreeChannel` applied a second time to an already released channel
leaves every field of the channel and the whole word table as the first call
left them, and makes no call except the `CloseMouth` notification: no source
stop or destroy and no decoder release. -/
theorem FreeChannel_idempotent (K : Consts) (w : World) (ch : aud_channel_t) :
    (FreeChannel K (FreeChannel K w ch).2 (FreeChannel K w ch).1).1 = (FreeChannel K w ch).1 ∧
    (FreeChannel K (FreeChannel K w ch).2 (FreeChannel K w ch).1).2.vox
      = (FreeChannel K w ch).2.vox ∧
    (FreeChannel K (FreeChannel K w ch).2 (FreeChannel K w ch).1).2.trace
      = (FreeChannel K w ch).2.trace ++ [Effect.CloseMouth (FreeChannel K w ch).1] := by
  refine ⟨?_, ?_, ?_⟩
  · rw [FreeChannel_channel K (FreeChannel K w ch).2, FreeChannel_channel K w ch]
    simp
  · apply FreeChannel_vox_of_neg
    rw [FreeChannel_channel]
    show (-1 : Int) < 0
    omega
  · rw [FreeChannel_trace K (FreeChannel K w ch).2, FreeChannel_channel K w ch]
    simp [FreeChannel_effects]

/-! ## Allocation -/

/-- C16. Allocation appends exactly one channel. `SND_PickStaticChannel`
always returns a reference, the position of the new channel, and
`SND_PickDynamicChannel` does so whenever `entchannel` is not `CHAN_STREAM`
or the pool-wide `IsPlaying(sfx)` is false; the target collection is then its
previous contents followed by one default-constructed channel, the one
returned, and the channels present before, the other collection and the
world are unchanged. -/
theorem Pick_appends_one_channel (K : Consts) (P : ChannelPool) (now : Int)
    (fresh : aud_channel_t) (e c : Int) (sfx : Option Nat) :
    ((SND_PickStaticChannel P fresh e c sfx).2.static_ = P.static_ ++ [fresh] ∧
      (SND_PickStaticChannel P fresh e c sfx).2.static_[(SND_PickStaticChannel P fresh e c sfx).1]?
        = some fresh ∧
      (SND_PickStaticChannel P fresh e c sfx).2.dynamic = P.dynamic ∧
      (SND_PickStaticChannel P fresh e c sfx).2.world = P.world) ∧
    ((c ≠ K.CHAN_STREAM ∨ (IsPlaying_sfx K P now sfx).1 = false) →
      ∃ i, (SND_PickDynamicChannel K P now fresh e c sfx).1 = some i ∧
        (SND_PickDynamicChannel K P now fresh e c sfx).2.dynamic = P.dynamic ++ [fresh] ∧
        (SND_PickDynamicChannel K P now fresh e c sfx).2.dynamic[i]? = some fresh ∧
        (SND_PickDynamicChannel K P now fresh e c sfx).2.static_ = P.static_ ∧
        (SND_PickDynamicChannel K P now fresh e c sfx).2.world = P.world) := by
  refine ⟨⟨rfl, ?_, rfl, rfl⟩, fun h => ⟨P.dynamic.length, ?_⟩⟩
  · simp [SND_PickStaticChannel]
  · have hres : SND_PickDynamicChannel K P now fresh e c sfx =
        (some P.dynamic.length, { P with dynamic := P.dynamic ++ [fresh] }) := by
      unfold SND_PickDynamicChannel
      by_cases hc : c = K.CHAN_STREAM
      · have hp : (IsPlaying_sfx K P now sfx).1 = false := h.resolve_left (fun hne => hne hc)
        rw [if_pos hc]
        rw [IsPlaying_sfx_eq] at hp ⊢
        simp only at hp
        rw [hp]
      · rw [if_neg hc]
    rw [hres]
    simp

/-- Instance of C16: a stream channel for sound 9 on the sample pool at time
150, when the only channel bearing sound 9 has passed its end time. -/
theorem Pick_appends_one_channel_witness :
    (IsPlaying_sfx sdkConsts samplePool 150 (some 9)).1 = false ∧
    ∃ i, (SND_PickDynamicChannel sdkConsts samplePool 150 sampleFresh 7 5 (some 9)).1 = some i ∧
      (SND_PickDynamicChannel sdkConsts samplePool 150 sampleFresh 7 5 (some 9)).2.dynamic
        = samplePool.dynamic ++ [sampleFresh] :=
  ⟨by decide,
    ((Pick_appends_one_channel sdkConsts samplePool 150 sampleFresh 7 5 (some 9)).2
      (Or.inr (by decide))).elim fun i hi => ⟨i, hi.1, hi.2.1⟩⟩

/-! ## Order of the calls of a release -/

/-- C18. The calls made by `FreeChannel(ch)` are, in this order: the source's
stop and then its destroy when a source is bound, the decoder release when a
decoder is bound, the `CVOXWORDMAX` word-slot writes of the sentence row when
`isentence >= 0`, and last, on every call, one `CloseMouth` notification,
which receives the channel with `sfx` already null and `isentence` already
-1; no `CloseMouth` comes before it. -/
theorem FreeChannel_CloseMouth_last (K : Consts) (w : World) (ch : aud_channel_t) :
    ∃ es : List Effect,
      es =
        (match ch.source with
          | some src => [Effect.sourceStop src, Effect.sourceDestroy src.stop]
          | none => []) ++
        (match ch.decoder with
          | some d => [Effect.decoderReset d]
          | none => []) ++
        (if 0 ≤ ch.isentence then
            (List.range K.CVOXWORDMAX).map (Effect.voxwordClear ch.isentence)
          else []) ∧
      (FreeChannel K w ch).2.trace
        = w.trace ++ es ++ [Effect.CloseMouth (FreeChannel K w ch).1] ∧
      es.countP Effect.isCloseMouth = 0 ∧
      (FreeChannel K w ch).1.sfx = none ∧
      (FreeChannel K w ch).1.isentence = -1 := by
  refine ⟨_, rfl, ?_, ?_, ?_, ?_⟩
  · rw [FreeChannel_trace, FreeChannel_channel]
    simp [FreeChannel_effects]
  · have hr : ∀ (k : Int) (l : List Nat),
        (l.map (Effect.voxwordClear k)).countP Effect.isCloseMouth = 0 := by
      intro k l
      induction l with
      | nil => rfl
      | cons a l ih => simp [List.countP_cons, Effect.isCloseMouth, ih]
    cases hs : ch.source <;> cases hd : ch.decoder <;> by_cases hk : 0 ≤ ch.isentence <;>
      simp [hk, List.countP_append, List.countP_cons, Effect.isCloseMouth, hr]
  · rw [FreeChannel_channel]
  · rw [FreeChannel_channel]

/-! ## Auxiliary facts -/

theorem getElem?_replace_ne {α : Type} (pre : List α) (a b : α) (post : List α) (j : Nat)
    (hj : j ≠ pre.length) :
    (pre ++ a :: post)[j]? = (pre ++ b :: post)[j]? := by
  by_cases hlt : j < pre.length
  · rw [List.getElem?_append_left hlt, List.getElem?_append_left hlt]
  · have hle : pre.length ≤ j := by omega
    rw [List.getElem?_append_right hle, List.getElem?_append_right hle]
    obtain ⟨k, hk⟩ : ∃ k, j - pre.length = k + 1 := ⟨j - pre.length - 1, by omega⟩
    rw [hk]
    simp

theorem IsPlaying_of_no_source (K : Consts) (al_xfi_workaround : F32) (now : Int)
    (ch : aud_channel_t) (h : ch.source = none) :
    IsPlaying K al_xfi_workaround now ch = false := by
  unfold IsPlaying
  rw [h]

theorem vacantOk_FreeChannel (K : Consts) (w : World) (ch : aud_channel_t) :
    vacantOk (FreeChannel K w ch).1 := by
  intro _
  rw [FreeChannel_channel]
  exact ⟨rfl, rfl, rfl⟩

theorem vacantOk_of_replace (l pre post : List aud_channel_t) (ch ch1 x : aud_channel_t)
    (hl : l = pre ++ ch :: post) (hinv : ∀ y, y ∈ l → vacantOk y) (h1 : vacantOk ch1)
    (hx : x ∈ pre ++ ch1 :: post) : vacantOk x := by
  rcases List.mem_append.mp hx with h | h
  · exact hinv x (by rw [hl]; exact List.mem_append_left _ h)
  · rcases List.mem_cons.mp h with heq | h
    · rw [heq]; exact h1
    · exact hinv x (by rw [hl]; exact List.mem_append_right _ (List.mem_cons_of_mem _ h))

/-! ## The lambda of `S_AlterChannel` -/

theorem internalFunctor_none (K : Consts) (fvol pitch : F32) (flags : Nat) (w : World)
    (ch : aud_channel_t) (hsrc : ch.source = none)
    (hbits : flags &&& K.SND_CHANGE_PITCH ≠ 0 ∨ flags &&& K.SND_CHANGE_VOL ≠ 0) :
    internalFunctor K fvol pitch flags w ch = none := by
  unfold internalFunctor
  by_cases hp : flags &&& K.SND_CHANGE_PITCH = 0
  · have hv : flags &&& K.SND_CHANGE_VOL ≠ 0 := hbits.resolve_left (fun h => h hp)
    simp [hp, hv, hsrc]
  · simp [hp, hsrc]

theorem internalFunctor_some_of_source (K : Consts) (fvol pitch : F32) (flags : Nat)
    (w : World) (ch : aud_channel_t) (src : Source) (hsrc : ch.source = some src) :
    ∃ r, internalFunctor K fvol pitch flags w ch = some r := by
  unfold internalFunctor
  by_cases hp : flags &&& K.SND_CHANGE_PITCH = 0 <;>
    by_cases hv : flags &&& K.SND_CHANGE_VOL = 0 <;>
    by_cases hs : flags &&& K.SND_STOP = 0 <;>
    simp [hp, hv, hs, hsrc]

theorem internalFunctor_some_of_no_bits (K : Consts) (fvol pitch : F32) (flags : Nat)
    (w : World) (ch : aud_channel_t)
    (hp : flags &&& K.SND_CHANGE_PITCH = 0) (hv : flags &&& K.SND_CHANGE_VOL = 0) :
    ∃ r, internalFunctor K fvol pitch flags w ch = some r := by
  unfold internalFunctor
  by_cases hs : flags &&& K.SND_STOP = 0 <;> simp [hp, hv, hs]

theorem internalFunctor_isSome_iff (K : Consts) (fvol pitch : F32) (flags : Nat) (w : World)
    (ch : aud_channel_t) :
    (internalFunctor K fvol pitch flags w ch).isSome = true ↔
      (ch.source ≠ none ∨
        (flags &&& K.SND_CHANGE_PITCH = 0 ∧ flags &&& K.SND_CHANGE_VOL = 0)) := by
  constructor
  · intro h
    cases hsrc : ch.source with
    | some src => exact Or.inl (by simp)
    | none =>
      refine Or.inr ?_
      by_cases hp : flags &&& K.SND_CHANGE_PITCH = 0
      · by_cases hv : flags &&& K.SND_CHANGE_VOL = 0
        · exact ⟨hp, hv⟩
        · rw [internalFunctor_none K fvol pitch flags w ch hsrc (Or.inr hv)] at h
          cases h
      · rw [internalFunctor_none K fvol pitch flags w ch hsrc (Or.inl hp)] at h
        cases h
  · rintro (h | ⟨hp, hv⟩)
    · cases hsrc : ch.source with
      | none => exact absurd hsrc h
      | some src =>
        obtain ⟨r, hr⟩ := internalFunctor_some_of_source K fvol pitch flags w ch src hsrc
        rw [hr]; rfl
    · obtain ⟨r, hr⟩ := internalFunctor_some_of_no_bits K fvol pitch flags w ch hp hv
      rw [hr]; rfl

theorem internalFunctor_pitch (K : Consts) (fvol pitch : F32) (flags : Nat) (w : World)
    (ch : aud_channel_t) (r : aud_channel_t × World)
    (hr : internalFunctor K fvol pitch flags w ch = some r)
    (h : flags &&& K.SND_CHANGE_PITCH ≠ 0) : r.1.pitch = pitch := by
  unfold internalFunctor at hr
  cases hsrc : ch.source <;>
    by_cases hv : flags &&& K.SND_CHANGE_VOL = 0 <;>
    by_cases hs : flags &&& K.SND_STOP = 0 <;>
    simp [h, hv, hs, hsrc] at hr <;>
    subst hr <;> simp [FreeChannel_channel]

theorem internalFunctor_volume (K : Consts) (fvol pitch : F32) (flags : Nat) (w : World)
    (ch : aud_channel_t) (r : aud_channel_t × World)
    (hr : internalFunctor K fvol pitch flags w ch = some r)
    (h : flags &&& K.SND_CHANGE_VOL ≠ 0) : r.1.volume = fvol := by
  unfold internalFunctor at hr
  cases hsrc : ch.source <;>
    by_cases hp : flags &&& K.SND_CHANGE_PITCH = 0 <;>
    by_cases hs : flags &&& K.SND_STOP = 0 <;>
    simp [h, hp, hs, hsrc] at hr <;>
    subst hr <;> simp [FreeChannel_channel]

theorem internalFunctor_source (K : Consts) (fvol pitch : F32) (flags : Nat) (w : World)
    (ch : aud_channel_t) (src : Source) (r : aud_channel_t × World)
    (hr : internalFunctor K fvol pitch flags w ch = some r)
    (hs : flags &&& K.SND_STOP = 0) (hsrc : ch.source = some src) :
    ∃ src1, r.1.source = some src1 ∧
      (flags &&& K.SND_CHANGE_PITCH ≠ 0 → src1.pitch = pitch) ∧
      (flags &&& K.SND_CHANGE_VOL ≠ 0 → src1.gain = fvol) := by
  unfold internalFunctor at hr
  by_cases hp : flags &&& K.SND_CHANGE_PITCH = 0 <;>
    by_cases hv : flags &&& K.SND_CHANGE_VOL = 0 <;>
    simp [hp, hv, hs, hsrc] at hr <;>
    subst hr <;> simp [hsrc, hp, hv, Source.setPitch, Source.setGain]

theorem internalFunctor_stop (K : Consts) (fvol pitch : F32) (flags : Nat) (w : World)
    (ch : aud_channel_t) (r : aud_channel_t × World)
    (hr : internalFunctor K fvol pitch flags w ch = some r)
    (h : flags &&& K.SND_STOP ≠ 0) :
    r.1.sfx = none ∧ r.1.isentence = -1 ∧ r.1.source = none ∧ r.1.decoder = none := by
  unfold internalFunctor at hr
  cases hsrc : ch.source <;>
    by_cases hp : flags &&& K.SND_CHANGE_PITCH = 0 <;>
    by_cases hv : flags &&& K.SND_CHANGE_VOL = 0 <;>
    simp [h, hp, hv, hsrc] at hr <;>
    subst hr <;> simp [FreeChannel_channel]

theorem internalFunctor_key (K : Consts) (fvol pitch : F32) (flags : Nat) (w : World)
    (ch : aud_channel_t) (r : aud_channel_t × World)
    (hr : internalFunctor K fvol pitch flags w ch = some r) :
    r.1.entnum = ch.entnum ∧ r.1.entchannel = ch.entchannel := by
  unfold internalFunctor at hr
  cases hsrc : ch.source <;>
    by_cases hp : flags &&& K.SND_CHANGE_PITCH = 0 <;>
    by_cases hv : flags &&& K.SND_CHANGE_VOL = 0 <;>
    by_cases hs : flags &&& K.SND_STOP = 0 <;>
    simp [hs, hp, hv, hsrc] at hr <;>
    subst hr <;> simp [FreeChannel_channel]

theorem internalFunctor_sfx_of_not_stop (K : Consts) (fvol pitch : F32) (flags : Nat)
    (w : World) (ch : aud_channel_t) (r : aud_channel_t × World)
    (hr : internalFunctor K fvol pitch flags w ch = some r)
    (hs : flags &&& K.SND_STOP = 0) :
    r.1.sfx = ch.sfx ∧ r.2 = w := by
  unfold internalFunctor at hr
  cases hsrc : ch.source <;>
    by_cases hp : flags &&& K.SND_CHANGE_PITCH = 0 <;>
    by_cases hv : flags &&& K.SND_CHANGE_VOL = 0 <;>
    simp [hs, hp, hv, hsrc] at hr <;>
    subst hr <;> simp

/-! ## The scan of `S_AlterChannel` -/

theorem any_of_opt_guarded_none {σ α : Type} (f : σ → α → Option (Bool × α × σ))
    (p : α → Bool) (g : σ → α → Option (α × σ))
    (hf : ∀ s x, f s x =
      if p x = true then (g s x).map (fun r => (true, r.1, r.2)) else some (false, x, s))
    (s : σ) (l : List α) (hl : ∀ x, x ∈ l → p x = false) :
    any_of_opt f s l = some (false, l, s) := by
  induction l with
  | nil => rfl
  | cons x xs ih =>
    unfold any_of_opt
    rw [hf, hl x (List.mem_cons_self x xs)]
    simp [ih fun y hy => hl y (List.mem_cons_of_mem x hy)]

theorem any_of_opt_guarded_first {σ α : Type} (f : σ → α → Option (Bool × α × σ))
    (p : α → Bool) (g : σ → α → Option (α × σ))
    (hf : ∀ s x, f s x =
      if p x = true then (g s x).map (fun r => (true, r.1, r.2)) else some (false, x, s))
    (s : σ) (pre : List α) (x : α) (post : List α)
    (hpre : ∀ y, y ∈ pre → p y = false) (hx : p x = true) :
    any_of_opt f s (pre ++ x :: post) =
      (g s x).map (fun r => (true, pre ++ r.1 :: post, r.2)) := by
  induction pre with
  | nil =>
    rw [List.nil_append]
    unfold any_of_opt
    rw [hf, if_pos hx]
    cases g s x <;> simp
  | cons y ys ih =>
    rw [List.cons_append]
    unfold any_of_opt
    rw [hf, hpre y (List.mem_cons_self y ys)]
    simp only [Bool.false_eq_true, if_false]
    rw [ih fun z hz => hpre z (List.mem_cons_of_mem y hz)]
    cases g s x <;> simp

theorem S_AlterChannel_functor_eq (K : Consts) (e c : Int) (sfx : sfx_t)
    (fvol pitch : F32) (flags : Nat) (w : World) (ch : aud_channel_t) :
    S_AlterChannel_functor K e c sfx fvol pitch flags w ch =
      if alterMatch e c sfx ch = true then
        (internalFunctor K fvol pitch flags w ch).map (fun r => (true, r.1, r.2))
      else some (false, ch, w) := by
  unfold S_AlterChannel_functor
  cases h : alterMatch e c sfx ch
  · simp
  · cases internalFunctor K fvol pitch flags w ch <;> simp

theorem S_AlterChannel_no_match (K : Consts) (P : ChannelPool) (e c : Int) (sfx : sfx_t)
    (fvol pitch : F32) (flags : Nat)
    (hdyn : ∀ x, x ∈ P.dynamic → alterMatch e c sfx x = false)
    (hsta : ∀ x, x ∈ P.static_ → alterMatch e c sfx x = false) :
    S_AlterChannel K P e c sfx fvol pitch flags = some (0, P) := by
  unfold S_AlterChannel
  rw [any_of_opt_guarded_none _ _ _
    (S_AlterChannel_functor_eq K e c sfx fvol pitch flags) _ _ hdyn]
  simp only
  rw [any_of_opt_guarded_none _ _ _
    (S_AlterChannel_functor_eq K e c sfx fvol pitch flags) _ _ hsta]
  simp

theorem S_AlterChannel_dynamic_match (K : Consts) (P : ChannelPool) (e c : Int) (sfx : sfx_t)
    (fvol pitch : F32) (flags : Nat) (pre : List aud_channel_t) (ch : aud_channel_t)
    (post : List aud_channel_t) (hsplit : P.dynamic = pre ++ ch :: post)
    (hpre : ∀ x, x ∈ pre → alterMatch e c sfx x = false)
    (hch : alterMatch e c sfx ch = true) :
    S_AlterChannel K P e c sfx fvol pitch flags =
      (internalFunctor K fvol pitch flags P.world ch).map fun r =>
        (1, { P with dynamic := pre ++ r.1 :: post, world := r.2 }) := by
  unfold S_AlterChannel
  rw [hsplit, any_of_opt_guarded_first _ _ _
    (S_AlterChannel_functor_eq K e c sfx fvol pitch flags) _ _ _ _ hpre hch]
  cases internalFunctor K fvol pitch flags P.world ch <;> simp

theorem S_AlterChannel_static_match (K : Consts) (P : ChannelPool) (e c : Int) (sfx : sfx_t)
    (fvol pitch : F32) (flags : Nat) (pre : List aud_channel_t) (ch : aud_channel_t)
    (post : List aud_channel_t)
    (hdyn : ∀ x, x ∈ P.dynamic → alterMatch e c sfx x = false)
    (hsplit : P.static_ = pre ++ ch :: post)
    (hpre : ∀ x, x ∈ pre → alterMatch e c sfx x = false)
    (hch : alterMatch e c sfx ch = true) :
    S_AlterChannel K P e c sfx fvol pitch flags =
      (internalFunctor K fvol pitch flags P.world ch).map fun r =>
        (1, { P with static_ := pre ++ r.1 :: post, world := r.2 }) := by
  unfold S_AlterChannel
  rw [any_of_opt_guarded_none _ _ _
    (S_AlterChannel_functor_eq K e c sfx fvol pitch flags) _ _ hdyn]
  simp only
  rw [hsplit, any_of_opt_guarded_first _ _ _
    (S_AlterChannel_functor_eq K e c sfx fvol pitch flags) _ _ _ _ hpre hch]
  cases internalFunctor K fvol pitch flags P.world ch <;> simp

theorem S_AlterChannel_cases (K : Consts) (P : ChannelPool) (e c : Int) (sfx : sfx_t)
    (fvol pitch : F32) (flags : Nat) :
    ((∀ x, x ∈ P.dynamic ++ P.static_ → alterMatch e c sfx x = false) ∧
      S_AlterChannel K P e c sfx fvol pitch flags = some (0, P)) ∨
    (∃ pre ch post, P.dynamic = pre ++ ch :: post ∧
      (∀ x, x ∈ pre → alterMatch e c sfx x = false) ∧ alterMatch e c sfx ch = true ∧
      S_AlterChannel K P e c sfx fvol pitch flags =
        (internalFunctor K fvol pitch flags P.world ch).map fun r =>
          (1, { P with dynamic := pre ++ r.1 :: post, world := r.2 })) ∨
    (∃ pre ch post, (∀ x, x ∈ P.dynamic → alterMatch e c sfx x = false) ∧
      P.static_ = pre ++ ch :: post ∧
      (∀ x, x ∈ pre → alterMatch e c sfx x = false) ∧ alterMatch e c sfx ch = true ∧
      S_AlterChannel K P e c sfx fvol pitch flags =
        (internalFunctor K fvol pitch flags P.world ch).map fun r =>
          (1, { P with static_ := pre ++ r.1 :: post, world := r.2 })) := by
  have hfalse : ∀ (l : List aud_channel_t),
      (¬ ∃ x, x ∈ l ∧ alterMatch e c sfx x = true) →
      ∀ x, x ∈ l → alterMatch e c sfx x = false := by
    intro l hl x hx
    cases hax : alterMatch e c sfx x with
    | false => rfl
    | true => exact absurd ⟨x, hx, hax⟩ hl
  by_cases hd : ∃ x, x ∈ P.dynamic ∧ alterMatch e c sfx x = true
  · obtain ⟨pre, ch, post, hl, hpre, hch⟩ := exists_first_split _ _ hd
    exact Or.inr (Or.inl ⟨pre, ch, post, hl, hpre, hch,
      S_AlterChannel_dynamic_match K P e c sfx fvol pitch flags pre ch post hl hpre hch⟩)
  · have hdyn := hfalse _ hd
    by_cases hs : ∃ x, x ∈ P.static_ ∧ alterMatch e c sfx x = true
    · obtain ⟨pre, ch, post, hl, hpre, hch⟩ := exists_first_split _ _ hs
      exact Or.inr (Or.inr ⟨pre, ch, post, hdyn, hl, hpre, hch,
        S_AlterChannel_static_match K P e c sfx fvol pitch flags pre ch post hdyn hl hpre hch⟩)
    · have hsta := hfalse _ hs
      refine Or.inl ⟨?_, S_AlterChannel_no_match K P e c sfx fvol pitch flags hdyn hsta⟩
      intro x hx
      rcases List.mem_append.mp hx with h | h
      · exact hdyn x h
      · exact hsta x h

theorem S_AlterChannel_first_match (K : Consts) (P : ChannelPool) (e c : Int) (sfx : sfx_t)
    (fvol pitch : F32) (flags : Nat) (pre : List aud_channel_t) (ch : aud_channel_t)
    (post : List aud_channel_t) (hsplit : P.dynamic ++ P.static_ = pre ++ ch :: post)
    (hpre : ∀ x, x ∈ pre → alterMatch e c sfx x = false)
    (hch : alterMatch e c sfx ch = true) :
    ∃ F : aud_channel_t × World → ChannelPool,
      S_AlterChannel K P e c sfx fvol pitch flags =
        (internalFunctor K fvol pitch flags P.world ch).map (fun r => (1, F r)) ∧
      ∀ r, (F r).dynamic ++ (F r).static_ = pre ++ r.1 :: post ∧
        (F r).dynamic.length = P.dynamic.length ∧
        (F r).static_.length = P.static_.length ∧
        (F r).world = r.2 ∧
        (F r).al_xfi_workaround = P.al_xfi_workaround := by
  rcases List.append_eq_append_iff.mp hsplit with ⟨a, ha, hb⟩ | ⟨b, ha, hb⟩
  · -- the first match lies in the static collection
    have hdyn : ∀ x, x ∈ P.dynamic → alterMatch e c sfx x = false := fun x hx =>
      hpre x (by rw [ha]; exact List.mem_append_left a hx)
    have hpre2 : ∀ x, x ∈ a → alterMatch e c sfx x = false := fun x hx =>
      hpre x (by rw [ha]; exact List.mem_append_right _ hx)
    refine ⟨fun r => { P with static_ := a ++ r.1 :: post, world := r.2 },
      S_AlterChannel_static_match K P e c sfx fvol pitch flags a ch post hdyn hb hpre2 hch,
      fun r => ?_⟩
    simp [ha, hb]
  · cases b with
    | nil =>
      -- the dynamic collection is `pre`, the static one starts with the match
      simp only [List.append_nil, List.nil_append] at ha hb
      have hdyn : ∀ x, x ∈ P.dynamic → alterMatch e c sfx x = false := fun x hx =>
        hpre x (by rw [← ha]; exact hx)
      refine ⟨fun r => { P with static_ := [] ++ r.1 :: post, world := r.2 },
        S_AlterChannel_static_match K P e c sfx fvol pitch flags [] ch post hdyn
          (by simpa using hb.symm) (by simp) hch,
        fun r => ?_⟩
      simp [ha, ← hb]
    | cons b0 bs =>
      -- the first match lies in the dynamic collection
      simp only [List.cons_append, List.cons.injEq] at hb
      obtain ⟨hb0, hpost⟩ := hb
      subst hb0
      refine ⟨fun r => { P with dynamic := pre ++ r.1 :: bs, world := r.2 },
        S_AlterChannel_dynamic_match K P e c sfx fvol pitch flags pre ch bs ha hpre hch,
        fun r => ?_⟩
      simp [hpost, ha]

theorem S_AlterChannel_returns (K : Consts) (P : ChannelPool) (e c : Int) (sfx : sfx_t)
    (fvol pitch : F32) (flags : Nat)
    (h : ∀ ch, ch ∈ P.dynamic ++ P.static_ → alterMatch e c sfx ch = true →
      ch.source ≠ none ∨
        (flags &&& K.SND_CHANGE_PITCH = 0 ∧ flags &&& K.SND_CHANGE_VOL = 0)) :
    ∃ res, S_AlterChannel K P e c sfx fvol pitch flags = some res := by
  rcases S_AlterChannel_cases K P e c sfx fvol pitch flags with
    ⟨_, hres⟩ | ⟨pre, ch, post, hl, _, hch, hres⟩ | ⟨pre, ch, post, _, hl, _, hch, hres⟩
  · exact ⟨_, hres⟩
  · have hm : ch ∈ P.dynamic ++ P.static_ := by
      rw [hl]; simp
    have hsome := (internalFunctor_isSome_iff K fvol pitch flags P.world ch).mpr (h ch hm hch)
    obtain ⟨r, hr⟩ := Option.isSome_iff_exists.mp hsome
    rw [hres, hr]
    exact ⟨_, rfl⟩
  · have hm : ch ∈ P.dynamic ++ P.static_ := by
      rw [hl]; simp
    have hsome := (internalFunctor_isSome_iff K fvol pitch flags P.world ch).mpr (h ch hm hch)
    obtain ⟨r, hr⟩ := Option.isSome_iff_exists.mp hsome
    rw [hres, hr]
    exact ⟨_, rfl⟩

/-! ## Parameter mutation -/

/-- C7, as the code has it. For a call of `S_AlterChannel(e, c, sfx, vol,
pitch, flags)` whose `sfx` name starts with the sentence marker and whose
flags request a volume and/or pitch change, on a pool holding two channels
that both have `entnum = e`, `entchannel = c`, a non-null `sfx` and
`isentence >= 0`, the first of them in storage order (dynamic collection
before static) having a bound source: the call returns true, and that first
channel carries the requested values, in its field and, when `SND_STOP` is
not set, in its source; every other channel, the second matching one
included, is unchanged. -/
theorem S_AlterChannel_sentence_updates_first_match (K : Consts) (P : ChannelPool)
    (e c : Int) (sfx : sfx_t) (fvol pitch : F32) (flags : Nat)
    (pre : List aud_channel_t) (ch1 : aud_channel_t) (mid : List aud_channel_t)
    (ch2 : aud_channel_t) (post : List aud_channel_t) (src : Source)
    (hname : isSentenceName sfx = true)
    (hflags : flags &&& K.SND_CHANGE_VOL ≠ 0 ∨ flags &&& K.SND_CHANGE_PITCH ≠ 0)
    (hsplit : P.dynamic ++ P.static_ = pre ++ ch1 :: (mid ++ ch2 :: post))
    (hpre : ∀ x, x ∈ pre →
      ¬ (x.entnum = e ∧ x.entchannel = c ∧ x.sfx ≠ none ∧ 0 ≤ x.isentence))
    (h1 : ch1.entnum = e ∧ ch1.entchannel = c ∧ ch1.sfx ≠ none ∧ 0 ≤ ch1.isentence)
    (h2 : ch2.entnum = e ∧ ch2.entchannel = c ∧ ch2.sfx ≠ none ∧ 0 ≤ ch2.isentence)
    (hsrc : ch1.source = some src) :
    ∃ P1 ch1',
      S_AlterChannel K P e c sfx fvol pitch flags = some (1, P1) ∧
      P1.dynamic ++ P1.static_ = pre ++ ch1' :: (mid ++ ch2 :: post) ∧
      P1.dynamic.length = P.dynamic.length ∧
      (ch1'.volume = fvol ∨ ch1'.pitch = pitch) ∧
      (flags &&& K.SND_CHANGE_PITCH ≠ 0 → ch1'.pitch = pitch) ∧
      (flags &&& K.SND_CHANGE_VOL ≠ 0 → ch1'.volume = fvol) ∧
      (flags &&& K.SND_STOP = 0 →
        ∃ src1, ch1'.source = some src1 ∧
          (flags &&& K.SND_CHANGE_PITCH ≠ 0 → src1.pitch = pitch) ∧
          (flags &&& K.SND_CHANGE_VOL ≠ 0 → src1.gain = fvol)) ∧
      sentenceMatch e c ch2 = true := by
  have hm : ∀ x : aud_channel_t, alterMatch e c sfx x = true ↔
      (x.entnum = e ∧ x.entchannel = c ∧ x.sfx ≠ none ∧ 0 ≤ x.isentence) := by
    intro x
    simp [alterMatch, hname, sentenceMatch, and_assoc]
  have hpre1 : ∀ x, x ∈ pre → alterMatch e c sfx x = false := by
    intro x hx
    cases hax : alterMatch e c sfx x with
    | false => rfl
    | true => exact absurd ((hm x).mp hax) (hpre x hx)
  obtain ⟨F, hS, hF⟩ := S_AlterChannel_first_match K P e c sfx fvol pitch flags pre ch1
    (mid ++ ch2 :: post) hsplit hpre1 ((hm ch1).mpr h1)
  obtain ⟨r, hr⟩ := internalFunctor_some_of_source K fvol pitch flags P.world ch1 src hsrc
  obtain ⟨hl, hlen, _, _, _⟩ := hF r
  refine ⟨F r, r.1, by rw [hS, hr]; rfl, hl, hlen, ?_,
    internalFunctor_pitch K fvol pitch flags P.world ch1 r hr,
    internalFunctor_volume K fvol pitch flags P.world ch1 r hr,
    fun hs => internalFunctor_source K fvol pitch flags P.world ch1 src r hr hs hsrc, ?_⟩
  · rcases hflags with h | h
    · exact Or.inl (internalFunctor_volume K fvol pitch flags P.world ch1 r hr h)
    · exact Or.inr (internalFunctor_pitch K fvol pitch flags P.world ch1 r hr h)
  · have := (hm ch2).mpr h2
    simpa [alterMatch, hname] using this

/-- Instance of C7 as the code has it: a volume change to 0.5 on the pool with
the two sample sentence channels of entity 5, voice channel. -/
theorem S_AlterChannel_sentence_updates_first_match_witness :
    isSentenceName sampleSentenceSfx = true ∧
    sampleSentenceChannel.source = some sampleSource ∧
    ∃ P1 ch1',
      S_AlterChannel sdkConsts sampleTwoSentencePool 5 2 sampleSentenceSfx
          sampleHalf F32.one 64 = some (1, P1) ∧
      P1.dynamic ++ P1.static_ = ch1' :: [sampleSentenceChannel2] ∧
      ch1'.volume = sampleHalf :=
  have h := S_AlterChannel_sentence_updates_first_match sdkConsts sampleTwoSentencePool 5 2
    sampleSentenceSfx sampleHalf F32.one 64 [] sampleSentenceChannel [] sampleSentenceChannel2 []
    sampleSource
    (by decide) (Or.inl (by decide)) (by decide) (by simp) (by decide) (by decide) rfl
  ⟨by decide, rfl,
    h.elim fun P1 h1 => h1.elim fun ch1' hc =>
      ⟨P1, ch1', hc.1, hc.2.1, hc.2.2.2.2.2.1 (by decide)⟩⟩

/-- C7 as stated fails: on the pool with the two sample sentence channels of
entity 5, voice channel, both with a bound source, a volume change to 0.5
through a sentence name returns true and updates the first channel and its
source, while the second matching channel keeps volume 1.0 in its field and
in its source. -/
theorem S_AlterChannel_second_match_not_updated :
    isSentenceName sampleSentenceSfx = true ∧
    64 &&& sdkConsts.SND_CHANGE_VOL ≠ 0 ∧
    sampleTwoSentencePool.dynamic = [sampleSentenceChannel, sampleSentenceChannel2] ∧
    sentenceMatch 5 2 sampleSentenceChannel = true ∧
    sentenceMatch 5 2 sampleSentenceChannel2 = true ∧
    S_AlterChannel sdkConsts sampleTwoSentencePool 5 2 sampleSentenceSfx
        sampleHalf F32.one 64
      = some (1, { sampleTwoSentencePool with
          dynamic :=
            [{ sampleSentenceChannel with
                volume := sampleHalf
                source := some { sampleSource with gain := sampleHalf } },
             sampleSentenceChannel2] }) ∧
    sampleSentenceChannel2.volume ≠ sampleHalf ∧
    sampleSentenceChannel2.source.map Source.gain ≠ some sampleHalf ∧
    ¬ (∀ res, S_AlterChannel sdkConsts sampleTwoSentencePool 5 2 sampleSentenceSfx
          sampleHalf F32.one 64 = some res →
        ∀ ch, ch ∈ res.2.dynamic → ch.volume = sampleHalf) := by
  have hres : S_AlterChannel sdkConsts sampleTwoSentencePool 5 2 sampleSentenceSfx
        sampleHalf F32.one 64
      = some (1, { sampleTwoSentencePool with
          dynamic :=
            [{ sampleSentenceChannel with
                volume := sampleHalf
                source := some { sampleSource with gain := sampleHalf } },
             sampleSentenceChannel2] }) := by decide
  refine ⟨by decide, by decide, by decide, by decide, by decide, hres, by decide,
    by decide, ?_⟩
  intro h
  have h2 := h _ hres sampleSentenceChannel2 (by decide)
  exact absurd h2 (by decide)

/-! ## Calls through an empty source handle -/

/-- C11, at the failing input: the dynamic collection holds a channel with
`entnum = 5`, `entchannel = 2`, a non-null `sfx`, `isentence = 1` and no
bound source; a call with a sentence name and `flags = SND_CHANGE_PITCH`
matches it and reaches `channel.source.setPitch` on the empty handle, so the
call does not return, where with `flags = SND_STOP` the same call returns
true. -/
theorem S_AlterChannel_pitch_on_sourceless_match_no_return :
    sampleSourcelessChannel ∈ sampleSourcelessPool.dynamic ∧
    (sampleSourcelessChannel.entnum = 5 ∧ sampleSourcelessChannel.entchannel = 2 ∧
      sampleSourcelessChannel.sfx ≠ none ∧ 0 ≤ sampleSourcelessChannel.isentence) ∧
    sampleSourcelessChannel.source = none ∧
    sampleSentenceSfx.name.head? = some '!' ∧
    S_AlterChannel sdkConsts sampleSourcelessPool 5 2 sampleSentenceSfx
        sampleHalf sampleHalf sdkConsts.SND_CHANGE_PITCH = none ∧
    (S_AlterChannel sdkConsts sampleSourcelessPool 5 2 sampleSentenceSfx
        sampleHalf sampleHalf sdkConsts.SND_STOP).map Prod.fst = some 1 := by
  decide

/-- C14, at the failing input: on the pool of C11's input, a call with
`flags = SND_STOP | SND_CHANGE_PITCH` matches the sourceless channel and
reaches `channel.source.setPitch` on the empty handle before `FreeChannel`:
the call does not return and the channel is not released, where with
`flags = SND_STOP` alone the channel ends released. -/
theorem S_AlterChannel_stop_with_pitch_on_sourceless_match_no_return :
    alterMatch 5 2 sampleSentenceSfx sampleSourcelessChannel = true ∧
    sampleSourcelessChannel.source = none ∧
    (sdkConsts.SND_STOP ||| sdkConsts.SND_CHANGE_PITCH) &&& sdkConsts.SND_STOP ≠ 0 ∧
    S_AlterChannel sdkConsts sampleSourcelessPool 5 2 sampleSentenceSfx
        sampleHalf sampleHalf (sdkConsts.SND_STOP ||| sdkConsts.SND_CHANGE_PITCH) = none ∧
    (S_AlterChannel sdkConsts sampleSourcelessPool 5 2 sampleSentenceSfx
        sampleHalf sampleHalf sdkConsts.SND_STOP).map (fun res => res.2.dynamic)
      = some [{ sampleSourcelessChannel with sfx := none, isentence := -1 }] := by
  decide

/-- C15, at the failing input: the dynamic collection holds a matching
channel without a source and the static collection a matching channel with
one; a call with `flags = SND_CHANGE_VOL` reaches `channel.source.setGain` on
the empty handle of the dynamic match, so the call does not return true. -/
theorem S_AlterChannel_vol_on_sourceless_dynamic_match_no_return :
    (∃ ch, ch ∈ sampleSourcelessPool.dynamic ∧
      alterMatch 5 2 sampleSentenceSfx ch = true ∧ ch.source = none) ∧
    (∃ ch, ch ∈ sampleSourcelessPool.static_ ∧
      alterMatch 5 2 sampleSentenceSfx ch = true) ∧
    S_AlterChannel sdkConsts sampleSourcelessPool 5 2 sampleSentenceSfx
        sampleHalf sampleHalf sdkConsts.SND_CHANGE_VOL = none := by
  refine ⟨⟨sampleSourcelessChannel, by decide, by decide, rfl⟩,
    ⟨sampleSentenceChannel2, by decide, by decide⟩, by decide⟩

/-! ## Frame of `S_AlterChannel` -/

/-- C19. `S_AlterChannel` changes at most one channel of the pool. When no
channel matches, the call returns 0 and the pool and the world are unchanged.
Otherwise the lambda runs on one channel only, the first matching channel of
the dynamic collection in storage order or, when no dynamic channel matches,
the first matching channel of the static collection: the call returns exactly
when the lambda does on that channel, that is when its source is bound or
neither `SND_CHANGE_PITCH` nor `SND_CHANGE_VOL` is set, and then that channel
is replaced by what the lambda made of it while every other channel of both
collections, later matching ones included, keeps its position and all its
fields. -/
theorem S_AlterChannel_changes_at_most_one (K : Consts) (P : ChannelPool) (e c : Int)
    (sfx : sfx_t) (fvol pitch : F32) (flags : Nat) :
    ((∀ x, x ∈ P.dynamic ++ P.static_ → alterMatch e c sfx x = false) →
      S_AlterChannel K P e c sfx fvol pitch flags = some (0, P)) ∧
    (∀ pre ch post, P.dynamic = pre ++ ch :: post →
      (∀ x, x ∈ pre → alterMatch e c sfx x = false) → alterMatch e c sfx ch = true →
      S_AlterChannel K P e c sfx fvol pitch flags =
        (internalFunctor K fvol pitch flags P.world ch).map fun r =>
          (1, { P with dynamic := pre ++ r.1 :: post, world := r.2 })) ∧
    (∀ pre ch post, (∀ x, x ∈ P.dynamic → alterMatch e c sfx x = false) →
      P.static_ = pre ++ ch :: post →
      (∀ x, x ∈ pre → alterMatch e c sfx x = false) → alterMatch e c sfx ch = true →
      S_AlterChannel K P e c sfx fvol pitch flags =
        (internalFunctor K fvol pitch flags P.world ch).map fun r =>
          (1, { P with static_ := pre ++ r.1 :: post, world := r.2 })) ∧
    (∀ (w : World) (ch : aud_channel_t),
      (internalFunctor K fvol pitch flags w ch).isSome = true ↔
        (ch.source ≠ none ∨
          (flags &&& K.SND_CHANGE_PITCH = 0 ∧ flags &&& K.SND_CHANGE_VOL = 0))) ∧
    (∀ res, S_AlterChannel K P e c sfx fvol pitch flags = some res →
      res.2.dynamic.length = P.dynamic.length ∧
      res.2.static_.length = P.static_.length ∧
      ∃ i : Nat, ∀ j : Nat, j ≠ i →
        (res.2.dynamic ++ res.2.static_)[j]? = (P.dynamic ++ P.static_)[j]?) := by
  refine ⟨?_, ?_, ?_, fun w ch => internalFunctor_isSome_iff K fvol pitch flags w ch, ?_⟩
  · intro hno
    exact S_AlterChannel_no_match K P e c sfx fvol pitch flags
      (fun x hx => hno x (List.mem_append_left _ hx))
      (fun x hx => hno x (List.mem_append_right _ hx))
  · intro pre ch post hl hpre hch
    exact S_AlterChannel_dynamic_match K P e c sfx fvol pitch flags pre ch post hl hpre hch
  · intro pre ch post hdyn hl hpre hch
    exact S_AlterChannel_static_match K P e c sfx fvol pitch flags pre ch post hdyn hl hpre hch
  · intro res hres
    rcases S_AlterChannel_cases K P e c sfx fvol pitch flags with
      ⟨_, h0⟩ | ⟨pre, ch, post, hl, _, _, h1⟩ | ⟨pre, ch, post, _, hl, _, _, h1⟩
    · rw [h0] at hres
      cases hres
      exact ⟨rfl, rfl, 0, fun _ _ => rfl⟩
    · rw [h1] at hres
      cases hr : internalFunctor K fvol pitch flags P.world ch with
      | none => rw [hr] at hres; cases hres
      | some r =>
        rw [hr] at hres
        cases hres
        refine ⟨by simp [hl], rfl, pre.length, fun j hj => ?_⟩
        simp only [hl, List.append_assoc, List.cons_append]
        exact getElem?_replace_ne pre _ _ _ j hj
    · rw [h1] at hres
      cases hr : internalFunctor K fvol pitch flags P.world ch with
      | none => rw [hr] at hres; cases hres
      | some r =>
        rw [hr] at hres
        cases hres
        refine ⟨rfl, by simp [hl], P.dynamic.length + pre.length, fun j hj => ?_⟩
        simp only [hl]
        rw [← List.append_assoc, ← List.append_assoc]
        exact getElem?_replace_ne (P.dynamic ++ pre) _ _ _ j (by simpa using hj)

/-- C20. `S_AlterChannel` never adds or removes a channel: whenever the call
returns, both collections have the length they had and the same `entnum` and
`entchannel` at each position, and the call returns whenever every matching
channel has a bound source or neither `SND_CHANGE_PITCH` nor `SND_CHANGE_VOL`
is set. When `SND_STOP` releases the first matching channel, the released
channel stays at its position with a null `sfx`; a later `ClearFinished`, a
`ClearEntityChannels` for its entity and channel type, or `ClearAllChannels`
removes it. -/
theorem S_AlterChannel_keeps_slots (K : Consts) (P : ChannelPool) (e c : Int)
    (sfx : sfx_t) (fvol pitch : F32) (flags : Nat) :
    ((∀ ch, ch ∈ P.dynamic ++ P.static_ → alterMatch e c sfx ch = true →
        ch.source ≠ none ∨
          (flags &&& K.SND_CHANGE_PITCH = 0 ∧ flags &&& K.SND_CHANGE_VOL = 0)) →
      ∃ res, S_AlterChannel K P e c sfx fvol pitch flags = some res) ∧
    (∀ res, S_AlterChannel K P e c sfx fvol pitch flags = some res →
      res.2.dynamic.length = P.dynamic.length ∧
      res.2.static_.length = P.static_.length ∧
      res.2.dynamic.map (fun ch => (ch.entnum, ch.entchannel))
        = P.dynamic.map (fun ch => (ch.entnum, ch.entchannel)) ∧
      res.2.static_.map (fun ch => (ch.entnum, ch.entchannel))
        = P.static_.map (fun ch => (ch.entnum, ch.entchannel)) ∧
      (flags &&& K.SND_STOP ≠ 0 →
        ∀ pre ch post, P.dynamic ++ P.static_ = pre ++ ch :: post →
          (∀ x, x ∈ pre → alterMatch e c sfx x = false) → alterMatch e c sfx ch = true →
          ∃ ch1,
            res.2.dynamic ++ res.2.static_ = pre ++ ch1 :: post ∧
            ch1.sfx = none ∧
            ch1.entnum = ch.entnum ∧ ch1.entchannel = ch.entchannel ∧
            (∀ now,
              ch1 ∉ (ClearFinished K res.2 now).dynamic ∧
              ch1 ∉ (ClearFinished K res.2 now).static_) ∧
            ch1 ∉ (ClearEntityChannels K res.2 ch1.entnum ch1.entchannel).dynamic ∧
            ch1 ∉ (ClearEntityChannels K res.2 ch1.entnum ch1.entchannel).static_ ∧
            (ClearAllChannels K res.2).dynamic = [] ∧
            (ClearAllChannels K res.2).static_ = [])) := by
  refine ⟨S_AlterChannel_returns K P e c sfx fvol pitch flags, fun res hres => ?_⟩
  have hshape :
      res.2.dynamic.length = P.dynamic.length ∧
      res.2.static_.length = P.static_.length ∧
      res.2.dynamic.map (fun ch => (ch.entnum, ch.entchannel))
        = P.dynamic.map (fun ch => (ch.entnum, ch.entchannel)) ∧
      res.2.static_.map (fun ch => (ch.entnum, ch.entchannel))
        = P.static_.map (fun ch => (ch.entnum, ch.entchannel)) := by
    rcases S_AlterChannel_cases K P e c sfx fvol pitch flags with
      ⟨_, h0⟩ | ⟨pre, ch, post, hl, _, _, h1⟩ | ⟨pre, ch, post, _, hl, _, _, h1⟩
    · rw [h0] at hres
      cases hres
      exact ⟨rfl, rfl, rfl, rfl⟩
    · rw [h1] at hres
      cases hr : internalFunctor K fvol pitch flags P.world ch with
      | none => rw [hr] at hres; cases hres
      | some r =>
        obtain ⟨k1, k2⟩ := internalFunctor_key K fvol pitch flags P.world ch r hr
        rw [hr] at hres
        cases hres
        refine ⟨by simp [hl], rfl, ?_, rfl⟩
        simp [hl, k1, k2]
    · rw [h1] at hres
      cases hr : internalFunctor K fvol pitch flags P.world ch with
      | none => rw [hr] at hres; cases hres
      | some r =>
        obtain ⟨k1, k2⟩ := internalFunctor_key K fvol pitch flags P.world ch r hr
        rw [hr] at hres
        cases hres
        refine ⟨rfl, by simp [hl], rfl, ?_⟩
        simp [hl, k1, k2]
  refine ⟨hshape.1, hshape.2.1, hshape.2.2.1, hshape.2.2.2, ?_⟩
  intro hstop pre ch post hsplit hpre hch
  obtain ⟨F, hS, hF⟩ :=
    S_AlterChannel_first_match K P e c sfx fvol pitch flags pre ch post hsplit hpre hch
  cases hr : internalFunctor K fvol pitch flags P.world ch with
  | none => rw [hS, hr] at hres; cases hres
  | some r =>
    rw [hS, hr] at hres
    cases hres
    obtain ⟨hl, _, _, _, _⟩ := hF r
    obtain ⟨h1, h2, h3, _⟩ := internalFunctor_stop K fvol pitch flags P.world ch r hr hstop
    obtain ⟨k1, k2⟩ := internalFunctor_key K fvol pitch flags P.world ch r hr
    refine ⟨r.1, hl, h1, k1, k2, fun now => ?_, ?_, ?_, ?_, ?_⟩
    · have hp := IsPlaying_of_no_source K (F r).al_xfi_workaround now r.1 h3
      rw [ClearFinished_eq]
      constructor <;>
      · intro hm
        have := (List.mem_filter.mp hm).2
        simp [h2, hp] at this
    · rw [ClearEntityChannels_eq]
      intro hm
      have := (List.mem_filter.mp hm).2
      simp at this
    · rw [ClearEntityChannels_eq]
      intro hm
      have := (List.mem_filter.mp hm).2
      simp at this
    · rw [ClearAllChannels_eq]
    · rw [ClearAllChannels_eq]

/-! ## Preservation of the vacancy invariant -/

theorem vacantOk_internalFunctor (K : Consts) (e c : Int) (sfx : sfx_t) (fvol pitch : F32)
    (flags : Nat) (w : World) (ch : aud_channel_t) (r : aud_channel_t × World)
    (hr : internalFunctor K fvol pitch flags w ch = some r)
    (hch : alterMatch e c sfx ch = true) :
    vacantOk r.1 := by
  by_cases hs : flags &&& K.SND_STOP = 0
  · intro hnull
    rw [(internalFunctor_sfx_of_not_stop K fvol pitch flags w ch r hr hs).1] at hnull
    have hm := (alterMatch_iff e c sfx ch).mp hch
    by_cases hn : isSentenceName sfx = true
    · rw [if_pos hn] at hm
      exact absurd hnull hm.2.2.1
    · rw [if_neg hn] at hm
      rw [hm.2.2] at hnull
      cases hnull
  · obtain ⟨_, h2, h3, h4⟩ := internalFunctor_stop K fvol pitch flags w ch r hr hs
    exact fun _ => ⟨h3, h4, h2⟩

theorem vacancyInvariant_S_AlterChannel (K : Consts) (P : ChannelPool)
    (hinv : vacancyInvariant P) (e c : Int) (sfx : sfx_t) (fvol pitch : F32) (flags : Nat)
    (res : Int × ChannelPool)
    (hres : S_AlterChannel K P e c sfx fvol pitch flags = some res) :
    vacancyInvariant res.2 := by
  have hdyn : ∀ y, y ∈ P.dynamic → vacantOk y :=
    fun y hy => hinv y (List.mem_append_left _ hy)
  have hsta : ∀ y, y ∈ P.static_ → vacantOk y :=
    fun y hy => hinv y (List.mem_append_right _ hy)
  rcases S_AlterChannel_cases K P e c sfx fvol pitch flags with
    ⟨_, h0⟩ | ⟨pre, ch, post, hl, _, hch, h1⟩ | ⟨pre, ch, post, _, hl, _, hch, h1⟩
  · rw [h0] at hres
    cases hres
    exact hinv
  · rw [h1] at hres
    cases hr : internalFunctor K fvol pitch flags P.world ch with
    | none => rw [hr] at hres; cases hres
    | some r =>
      rw [hr] at hres
      cases hres
      intro x hx
      rcases List.mem_append.mp hx with h | h
      · exact vacantOk_of_replace P.dynamic pre post ch _ x hl hdyn
          (vacantOk_internalFunctor K e c sfx fvol pitch flags P.world ch r hr hch) h
      · exact hsta x h
  · rw [h1] at hres
    cases hr : internalFunctor K fvol pitch flags P.world ch with
    | none => rw [hr] at hres; cases hres
    | some r =>
      rw [hr] at hres
      cases hres
      intro x hx
      rcases List.mem_append.mp hx with h | h
      · exact hdyn x h
      · exact vacantOk_of_replace P.static_ pre post ch _ x hl hsta
          (vacantOk_internalFunctor K e c sfx fvol pitch flags P.world ch r hr hch) h

/-- C17. The vacancy invariant (every channel of either collection with a
null `sfx` has no bound source, no bound decoder and `isentence = -1`) is
preserved by every pool operation: `FreeChannel` on a member of either
collection, `ClearAllChannels`, `ClearEntityChannels`, `ClearFinished`,
`S_AlterChannel` with a non-null `sfx` argument (it holds in the pool left by
every call that returns, and the call returns whenever every matching channel
has a bound source or neither `SND_CHANGE_PITCH` nor `SND_CHANGE_VOL` is
set), and `SND_PickStaticChannel` and `SND_PickDynamicChannel` when the
default-constructed channel satisfies it. -/
theorem vacancyInvariant_preserved (K : Consts) (P : ChannelPool)
    (hinv : vacancyInvariant P) :
    (∀ pre ch post, P.dynamic = pre ++ ch :: post →
      vacancyInvariant
        { P with
          dynamic := pre ++ (FreeChannel K P.world ch).1 :: post
          world := (FreeChannel K P.world ch).2 }) ∧
    (∀ pre ch post, P.static_ = pre ++ ch :: post →
      vacancyInvariant
        { P with
          static_ := pre ++ (FreeChannel K P.world ch).1 :: post
          world := (FreeChannel K P.world ch).2 }) ∧
    vacancyInvariant (ClearAllChannels K P) ∧
    (∀ e c, vacancyInvariant (ClearEntityChannels K P e c)) ∧
    (∀ now, vacancyInvariant (ClearFinished K P now)) ∧
    (∀ e c sfx fvol pitch flags,
      (∀ res, S_AlterChannel K P e c sfx fvol pitch flags = some res →
        vacancyInvariant res.2) ∧
      ((∀ ch, ch ∈ P.dynamic ++ P.static_ → alterMatch e c sfx ch = true →
          ch.source ≠ none ∨
            (flags &&& K.SND_CHANGE_PITCH = 0 ∧ flags &&& K.SND_CHANGE_VOL = 0)) →
        ∃ res, S_AlterChannel K P e c sfx fvol pitch flags = some res ∧
          vacancyInvariant res.2)) ∧
    (∀ fresh, vacantOk fresh →
      (∀ e c sfx, vacancyInvariant (SND_PickStaticChannel P fresh e c sfx).2) ∧
      (∀ now e c sfx, vacancyInvariant (SND_PickDynamicChannel K P now fresh e c sfx).2)) := by
  have hdyn : ∀ y, y ∈ P.dynamic → vacantOk y :=
    fun y hy => hinv y (List.mem_append_left _ hy)
  have hsta : ∀ y, y ∈ P.static_ → vacantOk y :=
    fun y hy => hinv y (List.mem_append_right _ hy)
  refine ⟨?_, ?_, ?_, ?_, ?_, ?_, ?_⟩
  · intro pre ch post hl x hx
    rcases List.mem_append.mp hx with h | h
    · exact vacantOk_of_replace P.dynamic pre post ch _ x hl hdyn
        (vacantOk_FreeChannel K P.world ch) h
    · exact hsta x h
  · intro pre ch post hl x hx
    rcases List.mem_append.mp hx with h | h
    · exact hdyn x h
    · exact vacantOk_of_replace P.static_ pre post ch _ x hl hsta
        (vacantOk_FreeChannel K P.world ch) h
  · rw [ClearAllChannels_eq]
    intro x hx
    simp at hx
  · intro e c
    rw [ClearEntityChannels_eq]
    intro x hx
    rcases List.mem_append.mp hx with h | h
    · exact hdyn x (List.mem_filter.mp h).1
    · exact hsta x (List.mem_filter.mp h).1
  · intro now
    rw [ClearFinished_eq]
    intro x hx
    rcases List.mem_append.mp hx with h | h
    · exact hdyn x (List.mem_filter.mp h).1
    · exact hsta x (List.mem_filter.mp h).1
  · intro e c sfx fvol pitch flags
    refine ⟨fun res hres =>
      vacancyInvariant_S_AlterChannel K P hinv e c sfx fvol pitch flags res hres, fun hsrc => ?_⟩
    obtain ⟨res, hres⟩ := S_AlterChannel_returns K P e c sfx fvol pitch flags hsrc
    exact ⟨res, hres,
      vacancyInvariant_S_AlterChannel K P hinv e c sfx fvol pitch flags res hres⟩
  · intro fresh hfresh
    have happ : ∀ l : List aud_channel_t, (∀ y, y ∈ l → vacantOk y) →
        ∀ y, y ∈ l ++ [fresh] → vacantOk y := by
      intro l hlinv y hy
      rcases List.mem_append.mp hy with h | h
      · exact hlinv y h
      · rw [List.mem_singleton.mp h]; exact hfresh
    constructor
    · intro e c sfx x hx
      rcases List.mem_append.mp hx with h | h
      · exact hdyn x h
      · exact happ P.static_ hsta x h
    · intro now e c sfx
      have hadd : vacancyInvariant { P with dynamic := P.dynamic ++ [fresh] } := by
        intro x hx
        rcases List.mem_append.mp hx with h | h
        · exact happ P.dynamic hdyn x h
        · exact hsta x h
      unfold SND_PickDynamicChannel
      by_cases hc : c = K.CHAN_STREAM
      · rw [if_pos hc, IsPlaying_sfx_eq]
        split
        · rename_i heq
          have := (Prod.mk.inj heq).2
          rw [← this]
          exact hinv
        · rename_i heq
          have := (Prod.mk.inj heq).2
          rw [← this]
          exact hadd
      · rw [if_neg hc]
        exact hadd

/-- Instance of C17: the pool with the two sample sentence channels
satisfies the invariant; a stop request on it returns, and the pool it leaves
satisfies the invariant. -/
theorem vacancyInvariant_preserved_witness :
    vacancyInvariant sampleTwoSentencePool ∧
    ∃ res, S_AlterChannel sdkConsts sampleTwoSentencePool 5 2 sampleSentenceSfx
        sampleHalf sampleHalf 32 = some res ∧
      vacancyInvariant res.2 :=
  ⟨by decide,
    ((vacancyInvariant_preserved sdkConsts sampleTwoSentencePool (by decide)).2.2.2.2.2.1
      5 2 sampleSentenceSfx sampleHalf sampleHalf 32).2
      (fun _ _ _ => Or.inr ⟨by decide, by decide⟩)⟩

end ChannelPool

end MetaAudio
